import Mathlib

/-!
Verification of the codeAnalyzerUI repository (TypeScript/React) against its
natural-language specification.  The development shallowly embeds the
relevant parts of the source:

* `src/src/hooks/useAnalysis.ts` (second, current revision): the file-tree
  builder `organizeFileStructure` — both as an idealized tree and, in
  `organizeFileStructureJs`, over raw JavaScript objects whose key space
  contains the `isFile`/`fullPath` leaf payload that `!current[part]`
  probes — the chat-response classifier `parseAnalysisResponse`, the
  completion routine `completeAnalysis`, and the session-restore effect.
* `src/src/utils/sessionStorage.ts`: `SessionStorage.getSession` and the
  axios client configuration (timeouts).

JavaScript values observed by that code are embedded explicitly: JSON.parse
is modelled by an executable JSON parser, `undefined` by `Option`, thrown
exceptions by `Except`, and numbers by exact scaled decimals (all numeric
literals involved are integers, where IEEE doubles are exact).  Wall-clock fields
(`Date.now()`, `toLocaleTimeString`) are threaded as parameters or omitted
where no claim mentions them; `console.log` calls are omitted.
-/

namespace CodeAnalyzerUI

/-! ## File tree model

`FileTreeNode` in `src/types` (part_002) is
`interface FileTreeNode { [key: string]: FileTreeNode | { isFile: true; fullPath: string } }`.
A node is a JavaScript object whose ordinary keys are the children; a leaf
additionally carries the `isFile`/`fullPath` pair.  We model a node as its
optional leaf payload (`info = some fullPath` iff the object has
`isFile: true, fullPath`) together with its insertion-ordered key/child
association list. -/

inductive FTree where
  | node (info : Option String) (children : List (String × FTree))

/-- The children association list of a node. -/
def FTree.children : FTree → List (String × FTree)
  | .node _ ch => ch

/-- The leaf payload (`fullPath` when `isFile : true` is present). -/
def FTree.info : FTree → Option String
  | .node i _ => i

/-- Helper for `jsSplitSlash`: accumulates the current segment (reversed). -/
def jsSplitSlashAux (acc : List Char) : List Char → List String
  | [] => [String.mk acc.reverse]
  | c :: rest =>
    if c = '/' then String.mk acc.reverse :: jsSplitSlashAux [] rest
    else jsSplitSlashAux (c :: acc) rest

/-- JavaScript `s.split('/')`: splits on every `/`, keeping empty segments,
and yields `[""]` on the empty string. -/
def jsSplitSlash (s : String) : List String :=
  jsSplitSlashAux [] s.data

/-- JavaScript property lookup on an object literal: first matching key
(keys are unique in every object the builder constructs). -/
def lookupChild : List (String × FTree) → String → Option FTree
  | [], _ => none
  | (k', t) :: rest, k => if k' = k then some t else lookupChild rest k

/-- Replace the value stored at the first occurrence of key `k`. -/
def updateChild : List (String × FTree) → String → FTree → List (String × FTree)
  | [], _, _ => []
  | (k', t) :: rest, k, v => if k' = k then (k', v) :: rest else (k', t) :: updateChild rest k v

/-- One `files.forEach` iteration of `organizeFileStructure`
(useAnalysis.ts lines 448-466), in the idealized tree view: walk the split
path segments from the current node; a missing segment is created
(`current[part] = ...`) as a leaf `\x7b isFile: true, fullPath: file \x7d`
for the last segment and as `\x7b\x7d` otherwise; an existing segment is
never overwritten (`if (!current[part])`).  New keys are appended at the
end, matching JavaScript object key order.  This view keeps the leaf
payload outside the probed key space, so it is adequate only while no
segment names a leaf-marker key: `insertPartsJs` further below models the
raw JavaScript object semantics, payload keys included, and `claim_C4`
proves the two agree exactly on that marker-free domain. -/
def insertParts : FTree → List String → String → FTree
  | t, [], _ => t
  | .node info ch, p :: rest, file =>
    match lookupChild ch p with
    | some sub => FTree.node info (updateChild ch p (insertParts sub rest file))
    | none =>
      let fresh : FTree := if rest = [] then FTree.node (some file) [] else FTree.node none []
      FTree.node info (ch ++ [(p, insertParts fresh rest file)])

/-- `organizeFileStructure` (useAnalysis.ts lines 448-466), idealized tree
view (see `insertParts` and the faithful `organizeFileStructureJs`): fold
every file path, split on `/` exactly as `file.split('/')`, into an
initially empty tree. -/
def organizeFileStructure (files : List String) : FTree :=
  files.foldl (fun t f => insertParts t (jsSplitSlash f) f) (FTree.node none [])

/-- Walking a segment list from a node, one child-lookup per segment. -/
def walk : FTree → List String → Option FTree
  | t, [] => some t
  | .node _ ch, p :: rest =>
    match lookupChild ch p with
    | some sub => walk sub rest
    | none => none

/-- Every segment of the list is present when walking from `t`. -/
def fullPathIn : FTree → List String → Bool
  | _, [] => true
  | .node _ ch, p :: rest =>
    match lookupChild ch p with
    | some sub => fullPathIn sub rest
    | none => false

/-! ### Equation lemmas -/

theorem insertParts_nil (t : FTree) (file : String) : insertParts t [] file = t := by
  cases t
  rfl

theorem insertParts_cons_some {ch : List (String × FTree)} {p : String} {sub : FTree}
    (info : Option String) (rest : List String) (file : String)
    (h : lookupChild ch p = some sub) :
    insertParts (FTree.node info ch) (p :: rest) file
      = FTree.node info (updateChild ch p (insertParts sub rest file)) := by
  simp only [insertParts, h]

theorem insertParts_cons_none {ch : List (String × FTree)} {p : String}
    (info : Option String) (rest : List String) (file : String)
    (h : lookupChild ch p = none) :
    insertParts (FTree.node info ch) (p :: rest) file
      = FTree.node info (ch ++ [(p, insertParts
          (if rest = [] then FTree.node (some file) [] else FTree.node none []) rest file)]) := by
  simp only [insertParts, h]

theorem walk_nil (t : FTree) : walk t [] = some t := by
  cases t
  rfl

theorem walk_cons_some {ch : List (String × FTree)} {p : String} {sub : FTree}
    (info : Option String) (rest : List String)
    (h : lookupChild ch p = some sub) :
    walk (FTree.node info ch) (p :: rest) = walk sub rest := by
  simp only [walk, h]

theorem walk_cons_none {ch : List (String × FTree)} {p : String}
    (info : Option String) (rest : List String)
    (h : lookupChild ch p = none) :
    walk (FTree.node info ch) (p :: rest) = none := by
  simp only [walk, h]

theorem fullPathIn_nil (t : FTree) : fullPathIn t [] = true := by
  cases t
  rfl

theorem fullPathIn_cons_some {ch : List (String × FTree)} {p : String} {sub : FTree}
    (info : Option String) (rest : List String)
    (h : lookupChild ch p = some sub) :
    fullPathIn (FTree.node info ch) (p :: rest) = fullPathIn sub rest := by
  simp only [fullPathIn, h]

theorem fullPathIn_cons_none {ch : List (String × FTree)} {p : String}
    (info : Option String) (rest : List String)
    (h : lookupChild ch p = none) :
    fullPathIn (FTree.node info ch) (p :: rest) = false := by
  simp only [fullPathIn, h]

/-! ### Association-list lemmas -/

theorem lookupChild_updateChild_self {ch : List (String × FTree)} {k : String} {v0 v : FTree}
    (h : lookupChild ch k = some v0) :
    lookupChild (updateChild ch k v) k = some v := by
  induction ch with
  | nil => simp [lookupChild] at h
  | cons hd tl ih =>
    obtain ⟨k', t⟩ := hd
    by_cases hk : k' = k
    · simp [lookupChild, updateChild, hk]
    · simp only [lookupChild, updateChild, if_neg hk] at h ⊢
      exact ih h

theorem lookupChild_updateChild_ne {ch : List (String × FTree)} {k q : String} {v : FTree}
    (h : q ≠ k) :
    lookupChild (updateChild ch k v) q = lookupChild ch q := by
  induction ch with
  | nil => simp [updateChild]
  | cons hd tl ih =>
    obtain ⟨k', t⟩ := hd
    by_cases hk : k' = k
    · subst hk
      simp [lookupChild, updateChild, Ne.symm h]
    · simp only [lookupChild, updateChild, if_neg hk]
      by_cases hq : k' = q
      · simp [hq]
      · simp [hq, ih]

theorem updateChild_lookup_self {ch : List (String × FTree)} {k : String} {v : FTree}
    (h : lookupChild ch k = some v) :
    updateChild ch k v = ch := by
  induction ch with
  | nil => simp [updateChild]
  | cons hd tl ih =>
    obtain ⟨k', t⟩ := hd
    by_cases hk : k' = k
    · simp only [lookupChild, if_pos hk] at h
      injection h with h
      subst h
      simp [updateChild, hk]
    · simp only [lookupChild, if_neg hk] at h
      simp [updateChild, hk, ih h]

theorem lookupChild_append_of_some {ch l : List (String × FTree)} {q : String} {s : FTree}
    (h : lookupChild ch q = some s) :
    lookupChild (ch ++ l) q = some s := by
  induction ch with
  | nil => simp [lookupChild] at h
  | cons hd tl ih =>
    obtain ⟨k', t⟩ := hd
    by_cases hk : k' = q
    · simp only [lookupChild, if_pos hk] at h
      simp [lookupChild, hk, h]
    · simp only [lookupChild, if_neg hk] at h
      simpa [lookupChild, hk] using ih h

theorem lookupChild_append_none {ch : List (String × FTree)} {q k : String} {v : FTree}
    (h : lookupChild ch q = none) :
    lookupChild (ch ++ [(k, v)]) q = if k = q then some v else none := by
  induction ch with
  | nil => simp [lookupChild]
  | cons hd tl ih =>
    obtain ⟨k', t⟩ := hd
    by_cases hk : k' = q
    · simp only [lookupChild, if_pos hk] at h
      exact absurd h (by simp)
    · simp only [lookupChild, if_neg hk] at h
      simpa [lookupChild, hk] using ih h

/-! ### Leaf placement invariant: every leaf records exactly the path at
which it sits. -/

/-- All leaves reachable inside `t` (which itself sits at absolute path
`pre`) record a full path that splits to their absolute position. -/
def placed (t : FTree) (pre : List String) : Prop :=
  ∀ pos fp ch, walk t pos = some (FTree.node (some fp) ch) → jsSplitSlash fp = pre ++ pos

theorem placed_empty (pre : List String) : placed (FTree.node none []) pre := by
  intro pos fp ch h
  cases pos with
  | nil => simp [walk] at h
  | cons p rest => simp [walk, lookupChild] at h

theorem placed_leaf {pre : List String} {file : String}
    (h : jsSplitSlash file = pre) : placed (FTree.node (some file) []) pre := by
  intro pos fp ch hw
  cases pos with
  | nil =>
    rw [walk_nil] at hw
    cases hw
    simpa using h
  | cons p rest => simp [walk, lookupChild] at hw

theorem placed_child {info : Option String} {ch : List (String × FTree)} {pre : List String}
    {p : String} {sub : FTree}
    (h : placed (FTree.node info ch) pre) (hl : lookupChild ch p = some sub) :
    placed sub (pre ++ [p]) := by
  intro pos fp ch2 hw
  have := h (p :: pos) fp ch2 (by rw [walk_cons_some info pos hl]; exact hw)
  simpa using this

theorem placed_insertParts {parts : List String} :
    ∀ {t : FTree} {pre : List String} {file : String}, placed t pre →
      pre ++ parts = jsSplitSlash file → placed (insertParts t parts file) pre := by
  induction parts with
  | nil =>
    intro t pre file h _
    simpa [insertParts_nil] using h
  | cons p rest ih =>
    intro t pre file h hsplit
    obtain ⟨info, ch⟩ := t
    have hsplit' : (pre ++ [p]) ++ rest = jsSplitSlash file := by simpa using hsplit
    match hl : lookupChild ch p with
    | some sub =>
      rw [insertParts_cons_some info rest file hl]
      intro pos fp ch2 hw
      cases pos with
      | nil =>
        rw [walk_nil] at hw
        injection hw with hw
        injection hw with h1 h2
        exact h [] fp ch (by rw [walk_nil, h1])
      | cons q qs =>
        by_cases hq : q = p
        · subst hq
          rw [walk_cons_some info qs (lookupChild_updateChild_self hl)] at hw
          have hsub : placed sub (pre ++ [q]) := placed_child h hl
          have := ih hsub hsplit' _ fp ch2 hw
          simpa using this
        · have hlu : lookupChild (updateChild ch p (insertParts sub rest file)) q
              = lookupChild ch q := lookupChild_updateChild_ne hq
          match hq2 : lookupChild ch q with
          | some s =>
            rw [walk_cons_some info qs (hlu.trans hq2)] at hw
            exact h (q :: qs) fp ch2 (by rw [walk_cons_some info qs hq2]; exact hw)
          | none =>
            rw [walk_cons_none info qs (hlu.trans hq2)] at hw
            cases hw
    | none =>
      rw [insertParts_cons_none info rest file hl]
      intro pos fp ch2 hw
      cases pos with
      | nil =>
        rw [walk_nil] at hw
        injection hw with hw
        injection hw with h1 h2
        exact h [] fp ch (by rw [walk_nil, h1])
      | cons q qs =>
        match hq2 : lookupChild ch q with
        | some s =>
          rw [walk_cons_some info qs (lookupChild_append_of_some hq2)] at hw
          exact h (q :: qs) fp ch2 (by rw [walk_cons_some info qs hq2]; exact hw)
        | none =>
          have hlu := lookupChild_append_none (k := p)
            (v := insertParts (if rest = [] then FTree.node (some file) []
              else FTree.node none []) rest file) hq2
          by_cases hq : p = q
          · rw [if_pos hq] at hlu
            subst hq
            rw [walk_cons_some info qs hlu] at hw
            have hfresh : placed (if rest = [] then FTree.node (some file) []
                else FTree.node none []) (pre ++ [p]) := by
              by_cases hrest : rest = []
              · rw [if_pos hrest]
                exact placed_leaf (by rw [← hsplit, hrest])
              · rw [if_neg hrest]
                exact placed_empty _
            have := ih hfresh hsplit' _ fp ch2 hw
            simpa using this
          · rw [if_neg hq] at hlu
            rw [walk_cons_none info qs hlu] at hw
            cases hw

/-! ### Idempotence of path insertion -/

theorem insertParts_twice (parts : List String) :
    ∀ (t : FTree) (file : String),
      insertParts (insertParts t parts file) parts file = insertParts t parts file := by
  induction parts with
  | nil =>
    intro t file
    rw [insertParts_nil]
  | cons p rest ih =>
    intro t file
    obtain ⟨info, ch⟩ := t
    match hl : lookupChild ch p with
    | some sub =>
      rw [insertParts_cons_some info rest file hl]
      have hl1 : lookupChild (updateChild ch p (insertParts sub rest file)) p
          = some (insertParts sub rest file) := lookupChild_updateChild_self hl
      rw [insertParts_cons_some info rest file hl1, ih, updateChild_lookup_self hl1]
    | none =>
      rw [insertParts_cons_none info rest file hl]
      have hl1 : lookupChild (ch ++ [(p, insertParts
          (if rest = [] then FTree.node (some file) [] else FTree.node none []) rest file)]) p
          = some (insertParts (if rest = [] then FTree.node (some file) []
              else FTree.node none []) rest file) := by
        rw [lookupChild_append_none hl, if_pos rfl]
      rw [insertParts_cons_some info rest file hl1, ih, updateChild_lookup_self hl1]

theorem insertParts_of_fullPathIn {parts : List String} :
    ∀ {t : FTree} {file : String}, fullPathIn t parts = true →
      insertParts t parts file = t := by
  induction parts with
  | nil =>
    intro t file _
    rw [insertParts_nil]
  | cons p rest ih =>
    intro t file h
    obtain ⟨info, ch⟩ := t
    match hl : lookupChild ch p with
    | some sub =>
      rw [fullPathIn_cons_some info rest hl] at h
      rw [insertParts_cons_some info rest file hl, ih h, updateChild_lookup_self hl]
    | none =>
      rw [fullPathIn_cons_none info rest hl] at h
      cases h

theorem fullPathIn_insertParts_self {parts : List String} :
    ∀ {t : FTree} {file : String}, fullPathIn (insertParts t parts file) parts = true := by
  induction parts with
  | nil =>
    intro t file
    rw [insertParts_nil, fullPathIn_nil]
  | cons p rest ih =>
    intro t file
    obtain ⟨info, ch⟩ := t
    match hl : lookupChild ch p with
    | some sub =>
      rw [insertParts_cons_some info rest file hl,
        fullPathIn_cons_some info rest (lookupChild_updateChild_self hl)]
      exact ih
    | none =>
      rw [insertParts_cons_none info rest file hl]
      have hl1 : lookupChild (ch ++ [(p, insertParts
          (if rest = [] then FTree.node (some file) [] else FTree.node none []) rest file)]) p
          = some (insertParts (if rest = [] then FTree.node (some file) []
              else FTree.node none []) rest file) := by
        rw [lookupChild_append_none hl, if_pos rfl]
      rw [fullPathIn_cons_some info rest hl1]
      exact ih

theorem fullPathIn_insertParts_mono {parts : List String} :
    ∀ {t : FTree} {parts2 : List String} {g : String}, fullPathIn t parts = true →
      fullPathIn (insertParts t parts2 g) parts = true := by
  induction parts with
  | nil =>
    intro t parts2 g _
    rw [fullPathIn_nil]
  | cons p rest ih =>
    intro t parts2 g h
    obtain ⟨info, ch⟩ := t
    match hl : lookupChild ch p with
    | some sub =>
      rw [fullPathIn_cons_some info rest hl] at h
      cases parts2 with
      | nil =>
        rw [insertParts_nil, fullPathIn_cons_some info rest hl]
        exact h
      | cons q qrest =>
        match hq : lookupChild ch q with
        | some sub2 =>
          rw [insertParts_cons_some info qrest g hq]
          by_cases hpq : p = q
          · subst hpq
            have : sub2 = sub := by rw [hq] at hl; injection hl
            subst this
            rw [fullPathIn_cons_some info rest (lookupChild_updateChild_self hq)]
            exact ih h
          · have : lookupChild (updateChild ch q (insertParts sub2 qrest g)) p
                = some sub := (lookupChild_updateChild_ne hpq).trans hl
            rw [fullPathIn_cons_some info rest this]
            exact h
        | none =>
          rw [insertParts_cons_none info qrest g hq]
          have : lookupChild (ch ++ [(q, insertParts
              (if qrest = [] then FTree.node (some g) [] else FTree.node none [])
                qrest g)]) p = some sub := lookupChild_append_of_some hl
          rw [fullPathIn_cons_some info rest this]
          exact h
    | none =>
      rw [fullPathIn_cons_none info rest hl] at h
      cases h

theorem fullPathIn_foldl {l : List String} :
    ∀ {t : FTree} {parts : List String}, fullPathIn t parts = true →
      fullPathIn (l.foldl (fun t f => insertParts t (jsSplitSlash f) f) t) parts = true := by
  induction l with
  | nil =>
    intro t parts h
    simpa using h
  | cons g gs ih =>
    intro t parts h
    exact ih (fullPathIn_insertParts_mono h)

/-- The builder never moves a leaf: each file path already inserted stays
fully present in the tree, so re-inserting it later changes nothing. -/
theorem organize_mem_noop {files : List String} {f : String} (h : f ∈ files) :
    insertParts (organizeFileStructure files) (jsSplitSlash f) f
      = organizeFileStructure files := by
  obtain ⟨l1, l2, rfl⟩ := List.append_of_mem h
  apply insertParts_of_fullPathIn
  unfold organizeFileStructure
  rw [List.foldl_append, List.foldl_cons]
  exact fullPathIn_foldl fullPathIn_insertParts_self

/-- Every leaf of the organized tree records exactly its own position. -/
theorem placed_organize (files : List String) : placed (organizeFileStructure files) [] := by
  have main : ∀ (l : List String) (t : FTree), placed t [] →
      placed (l.foldl (fun t f => insertParts t (jsSplitSlash f) f) t) [] := by
    intro l
    induction l with
    | nil =>
      intro t h
      simpa using h
    | cons g gs ih =>
      intro t h
      simp only [List.foldl_cons]
      exact ih _ (placed_insertParts h (by simp))
  exact main files _ (placed_empty [])

/-! ## JavaScript values and `JSON.parse`

`parseAnalysisResponse` starts with `JSON.parse(response)` inside a
try/catch, and `SessionStorage.getSession` parses the cookie payload the
same way.  We model JavaScript values producible by `JSON.parse` and give an
executable parser for the JSON grammar (RFC 8259, which is what
`JSON.parse` accepts).  A number is represented exactly as a scaled decimal
`m * 10 ^ e`; every numeric literal relevant to a claim is a small integer,
for which IEEE doubles are exact. -/

structure JsNum where
  m : Int
  e : Int
deriving DecidableEq

/-- Difference of two scaled decimals (exact). -/
def JsNum.sub (a b : JsNum) : JsNum :=
  if a.e ≤ b.e then ⟨a.m - b.m * 10 ^ (b.e - a.e).toNat, a.e⟩
  else ⟨a.m * 10 ^ (a.e - b.e).toNat - b.m, b.e⟩

/-- Value comparison `a > b` of scaled decimals: the sign of `a - b`
decides, since the scale factor is positive. -/
def JsNum.gtv (a b : JsNum) : Bool :=
  decide (0 < (a.sub b).m)

inductive Json where
  | null
  | bool (b : Bool)
  | num (v : JsNum)
  | str (s : String)
  | arr (elems : List Json)
  | obj (members : List (String × Json))

/-- Skip JSON whitespace (space, tab, line feed, carriage return). -/
def skipWs : List Char → List Char
  | [] => []
  | c :: rest =>
    if c = ' ' ∨ c = Char.ofNat 9 ∨ c = Char.ofNat 10 ∨ c = Char.ofNat 13 then skipWs rest
    else c :: rest

/-- Value of one hexadecimal digit. -/
def hexVal (c : Char) : Option Nat :=
  if '0' ≤ c ∧ c ≤ '9' then some (c.toNat - 48)
  else if 'a' ≤ c ∧ c ≤ 'f' then some (c.toNat - 87)
  else if 'A' ≤ c ∧ c ≤ 'F' then some (c.toNat - 55)
  else none

/-- Body of a JSON string after the opening quote; `acc` holds the decoded
characters in reverse.  Unescaped control characters are rejected, escape
sequences are decoded (a `\u` escape denoting a UTF-16 surrogate half is not
a Unicode scalar; `Char.ofNat` maps it to NUL — no claim involves one). -/
def parseStrAux (acc : List Char) : List Char → Option (String × List Char)
  | [] => none
  | c :: rest =>
    if c = '"' then some (String.mk acc.reverse, rest)
    else if c = '\\' then
      match rest with
      | [] => none
      | e :: rest2 =>
        if e = '"' then parseStrAux ('"' :: acc) rest2
        else if e = '\\' then parseStrAux ('\\' :: acc) rest2
        else if e = '/' then parseStrAux ('/' :: acc) rest2
        else if e = 'b' then parseStrAux (Char.ofNat 8 :: acc) rest2
        else if e = 'f' then parseStrAux (Char.ofNat 12 :: acc) rest2
        else if e = 'n' then parseStrAux (Char.ofNat 10 :: acc) rest2
        else if e = 'r' then parseStrAux (Char.ofNat 13 :: acc) rest2
        else if e = 't' then parseStrAux (Char.ofNat 9 :: acc) rest2
        else if e = 'u' then
          match rest2 with
          | a :: b :: c2 :: d :: rest3 =>
            match hexVal a, hexVal b, hexVal c2, hexVal d with
            | some x1, some x2, some x3, some x4 =>
              parseStrAux (Char.ofNat (((x1 * 16 + x2) * 16 + x3) * 16 + x4) :: acc) rest3
            | _, _, _, _ => none
          | _ => none
        else none
    else if c.toNat < 32 then none
    else parseStrAux (c :: acc) rest

/-- Decimal value of a digit run. -/
def digitsToNat (ds : List Char) : Nat :=
  ds.foldl (fun n c => n * 10 + (c.toNat - 48)) 0

/-- Exponent part of a JSON number, after the `e`/`E`. -/
def parseExpPart (cs : List Char) : Option (Int × List Char) :=
  let signAndRest : Int × List Char :=
    match cs with
    | '+' :: r => (1, r)
    | '-' :: r => (-1, r)
    | _ => (1, cs)
  match List.span Char.isDigit signAndRest.2 with
  | (ds, r) => if ds = [] then none else some (signAndRest.1 * (digitsToNat ds : Int), r)

/-- Assemble the exact value of a parsed JSON number as a scaled decimal:
integer digits `ip`, fraction digits `fracDs` and exponent `e` denote
`±(ip * 10 ^ |frac| + frac) * 10 ^ (e - |frac|)`. -/
def mkNum (neg : Bool) (ip : Nat) (fracDs : List Char) (e : Int) : Json :=
  let mant : Int := (ip * 10 ^ fracDs.length + digitsToNat fracDs : Nat)
  Json.num ⟨if neg then -mant else mant, e - fracDs.length⟩

/-- Fraction and exponent of a JSON number, after the integer part.  A dot
or `e` not followed by a digit is left unconsumed; the surrounding grammar
then rejects the input, exactly as `JSON.parse` does. -/
def parseNumAfterInt (neg : Bool) (ip : Nat) (cs : List Char) : Option (Json × List Char) :=
  let fracAndRest : List Char × List Char :=
    match cs with
    | '.' :: rest =>
      match List.span Char.isDigit rest with
      | ([], _) => ([], cs)
      | (ds, r) => (ds, r)
    | _ => ([], cs)
  match fracAndRest.2 with
  | c :: rest =>
    if c = 'e' ∨ c = 'E' then
      match parseExpPart rest with
      | some (e, r) => some (mkNum neg ip fracAndRest.1 e, r)
      | none => some (mkNum neg ip fracAndRest.1 0, fracAndRest.2)
    else some (mkNum neg ip fracAndRest.1 0, fracAndRest.2)
  | [] => some (mkNum neg ip fracAndRest.1 0, fracAndRest.2)

/-- A JSON number.  A leading `0` must stand alone (`01` leaves the second
digit unconsumed and the surrounding grammar rejects it, as `JSON.parse`
does). -/
def parseNumber (cs : List Char) : Option (Json × List Char) :=
  let negAndRest : Bool × List Char :=
    match cs with
    | '-' :: rest => (true, rest)
    | _ => (false, cs)
  match negAndRest.2 with
  | '0' :: rest => parseNumAfterInt negAndRest.1 0 rest
  | c :: _ =>
    if c.isDigit then
      match List.span Char.isDigit negAndRest.2 with
      | (ds, rest) => parseNumAfterInt negAndRest.1 (digitsToNat ds) rest
    else none
  | [] => none

mutual

/-- A JSON value with leading whitespace.  `fuel` strictly decreases on
every recursive call; along any descent path at least one input character
is consumed per two units of fuel, so `2 * length + 4` fuel (as supplied by
`jsonParse`) never runs out on well-formed input. -/
def parseValue : Nat → List Char → Option (Json × List Char)
  | 0, _ => none
  | fuel + 1, cs =>
    match skipWs cs with
    | [] => none
    | '{' :: rest =>
      (match skipWs rest with
       | '}' :: rest2 => some (Json.obj [], rest2)
       | cs2 => parseMembers fuel cs2 [])
    | '[' :: rest =>
      (match skipWs rest with
       | ']' :: rest2 => some (Json.arr [], rest2)
       | cs2 => parseElems fuel cs2 [])
    | '"' :: rest =>
      (match parseStrAux [] rest with
       | some (s, rest2) => some (Json.str s, rest2)
       | none => none)
    | 't' :: 'r' :: 'u' :: 'e' :: rest => some (Json.bool true, rest)
    | 'f' :: 'a' :: 'l' :: 's' :: 'e' :: rest => some (Json.bool false, rest)
    | 'n' :: 'u' :: 'l' :: 'l' :: rest => some (Json.null, rest)
    | c :: rest => if c = '-' ∨ c.isDigit then parseNumber (c :: rest) else none

/-- The members of a JSON object, after `{` (first member not yet read). -/
def parseMembers : Nat → List Char → List (String × Json) → Option (Json × List Char)
  | 0, _, _ => none
  | fuel + 1, cs, acc =>
    match skipWs cs with
    | '"' :: rest =>
      (match parseStrAux [] rest with
       | some (key, rest2) =>
         (match skipWs rest2 with
          | ':' :: rest3 =>
            (match parseValue fuel rest3 with
             | some (v, rest4) =>
               (match skipWs rest4 with
                | ',' :: rest5 => parseMembers fuel rest5 (acc ++ [(key, v)])
                | '}' :: rest5 => some (Json.obj (acc ++ [(key, v)]), rest5)
                | _ => none)
             | none => none)
          | _ => none)
       | none => none)
    | _ => none

/-- The elements of a JSON array, after `[` (first element not yet read). -/
def parseElems : Nat → List Char → List Json → Option (Json × List Char)
  | 0, _, _ => none
  | fuel + 1, cs, acc =>
    match parseValue fuel cs with
    | some (v, rest) =>
      (match skipWs rest with
       | ',' :: rest2 => parseElems fuel rest2 (acc ++ [v])
       | ']' :: rest2 => some (Json.arr (acc ++ [v]), rest2)
       | _ => none)
    | none => none

end

/-- `JSON.parse(s)` as used in the source: `some` the parsed value, `none`
when the original throws a `SyntaxError`. -/
def jsonParse (s : String) : Option Json :=
  match parseValue (2 * s.length + 4) s.data with
  | some (j, rest) => if skipWs rest = [] then some j else none
  | none => none

/-- Property lookup inside a parsed object: for duplicate keys `JSON.parse`
keeps the last occurrence. -/
def jLookupLast (ms : List (String × Json)) (k : String) : Option Json :=
  ms.foldl (fun acc kv => if kv.1 = k then some kv.2 else acc) none

/-- JavaScript member access `o.k`: a TypeError on `null`, the property (or
`undefined`, i.e. `none`) on objects, `undefined` on every other value
producible by `JSON.parse`. -/
def jsField (j : Json) (k : String) : Except Unit (Option Json) :=
  match j with
  | Json.null => Except.error ()
  | Json.obj ms => Except.ok (jLookupLast ms k)
  | _ => Except.ok none

/-! ## Activity history and the chat-response classifier -/

/-- One activity-log entry (`HistoryEntry` in `src/types`).  The `id` and
`timestamp` fields hold wall-clock values (`Date.now()`,
`toLocaleTimeString`); no claim mentions them and they are omitted here. -/
structure HistoryEntry where
  action : String
  status : String
  details : String
deriving DecidableEq

/-- `truncateMessage` (useAnalysis.ts lines 377-380), with the default
`maxLength = 80` passed explicitly at call sites. -/
def truncateMessage (message : String) (maxLength : Nat) : String :=
  if message.length ≤ maxLength then message
  else String.mk (message.data.take maxLength) ++ "..."

/-- `addHistoryEntry` (useAnalysis.ts lines 383-397): prepends an entry with
display-truncated details (`setAnalysisHistory(prev => [entry, ...prev])`). -/
def addHistoryEntry (history : List HistoryEntry) (action status details : String) :
    List HistoryEntry :=
  { action := action, status := status, details := truncateMessage details 80 } :: history

/-- Does `needle` occur at the head of `hay`? -/
def leadMatch : List Char → List Char → Bool
  | [], _ => true
  | _ :: _, [] => false
  | a :: as, b :: bs => if a = b then leadMatch as bs else false

/-- Substring occurrence anywhere in `hay`. -/
def subIn (needle : List Char) : List Char → Bool
  | [] => leadMatch needle []
  | c :: rest => leadMatch needle (c :: rest) || subIn needle rest

/-- JavaScript `s.includes(pat)`. -/
def jsIncludes (s pat : String) : Bool :=
  subIn pat.data s.data

/-- ASCII lowercasing, as `toLowerCase` behaves on the ASCII status strings
the classifier compares against. -/
def lowerAscii (s : String) : String :=
  String.mk (s.data.map Char.toLower)

/-- The `statusObj.status` examination of the structured fast path
(useAnalysis.ts lines 529-531): the branch proceeds only when `status` is a
truthy value whose `toLowerCase()` succeeds, i.e. a non-empty string.  A
falsy `status` skips the branch; a truthy non-string one makes
`toLowerCase()` throw a TypeError that the surrounding catch swallows;
accessing `.status` on a parsed `null` throws likewise — all three continue
with the text heuristics, so all three are `none` here. -/
def jsStatusLower (statusObj : Json) : Option String :=
  match jsField statusObj "status" with
  | Except.error _ => none
  | Except.ok none => none
  | Except.ok (some sv) =>
    match sv with
    | Json.str s => if s = "" then none else some (lowerAscii s)
    | _ => none

/-- A string-valued field with a fallback, as used for
`statusObj.message || 'Analysis failed'` and
`(statusObj.progress || '') || 'Analysis in progress'`.  A truthy non-string
value in these fields would make `truncateMessage` inside `addHistoryEntry`
throw in the original (swallowed by the surrounding catch); that corner is
modelled by the fallback text — no claim depends on it. -/
def statusField (statusObj : Json) (k fallback : String) : String :=
  match jsField statusObj k with
  | Except.ok (some (Json.str s)) => if s = "" then fallback else s
  | _ => fallback

/-- Result of one classifier invocation: the returned tag, the activity
history after the call, the `isAnalyzing` / `currentStatus` state after the
call, and whether `setTimeout(() => completeAnalysis(), 1000)` was
scheduled. -/
structure ParseOutcome where
  result : String
  history : List HistoryEntry
  isAnalyzing : Bool
  currentStatus : String
  completeScheduled : Bool
deriving DecidableEq

/-- The text-heuristic part of `parseAnalysisResponse` (useAnalysis.ts
lines 551-655), reached when the structured fast path falls through. -/
def parseTextResponse (history : List HistoryEntry) (isAnalyzing : Bool)
    (currentStatus : String) (response : String) : ParseOutcome :=
  if jsIncludes response "System Health Check"
      || jsIncludes response "All systems are operational"
      || jsIncludes response "All systems operational and ready" then
    ⟨"health_check", history, isAnalyzing, currentStatus, false⟩
  else if jsIncludes response "System Health Check"
      && (jsIncludes response "failed" || jsIncludes response "error"
        || jsIncludes response "unavailable") then
    ⟨"health_check_failed",
      addHistoryEntry history "System Health" "error" "System health check failed",
      isAnalyzing, currentStatus, false⟩
  else if jsIncludes response "Analysis completed"
      || jsIncludes response "successfully processed"
      || jsIncludes response "analysis is complete"
      || jsIncludes response "finished analyzing"
      || jsIncludes response "Storing everything in the vector database"
      || jsIncludes response "You can now ask me questions"
      || jsIncludes response "process may take 2-10 minutes"
      || (jsIncludes response "Creating vector embeddings"
        && jsIncludes response "Storing everything") then
    ⟨"completed", history, isAnalyzing, currentStatus, true⟩
  else if jsIncludes response "files processed"
      || jsIncludes response "parsing"
      || jsIncludes response "analyzing"
      || jsIncludes response "processing"
      || jsIncludes response "cloning initiated"
      || jsIncludes response "Code analysis"
      || jsIncludes response "embedding generation"
      || jsIncludes response "Creating vector embeddings"
      || jsIncludes response "Repository cloning" then
    if jsIncludes response "This process may take 2-10 minutes"
        && jsIncludes response "You can now ask me questions" then
      ⟨"completed", history, isAnalyzing, currentStatus, true⟩
    else
      let statusMessage :=
        if jsIncludes response "cloning" || jsIncludes response "Repository cloning" then
          "Cloning repository"
        else if jsIncludes response "parsing" then "Parsing code files"
        else if jsIncludes response "analyzing" || jsIncludes response "Code analysis" then
          "Analyzing code structure"
        else if jsIncludes response "embedding"
            || jsIncludes response "Creating vector embeddings" then
          "Creating embeddings"
        else if jsIncludes response "files processed" then "Processing files"
        else "Processing repository..."
      let shouldAdd : Bool :=
        match history with
        | [] => true
        | lastEntry :: _ => if lastEntry.details = statusMessage then false else true
      ⟨"in_progress",
        if shouldAdd then addHistoryEntry history "Analysis Progress" "in_progress" statusMessage
        else history,
        isAnalyzing, currentStatus, false⟩
  else if jsIncludes response "error"
      || jsIncludes response "failed"
      || jsIncludes response "cannot"
      || jsIncludes response "unable to" then
    let errorMessage :=
      if jsIncludes response "cannot access" || jsIncludes response "unable to access" then
        "Unable to access repository"
      else if jsIncludes response "failed to clone" then "Failed to clone repository"
      else if jsIncludes response "timeout" then "Analysis timed out"
      else "Analysis failed"
    ⟨"error", addHistoryEntry history "Analysis Failed" "error" errorMessage, false, "error",
      false⟩
  else
    let conciseUpdate := "Analysis in progress"
    let shouldAdd : Bool :=
      match history with
      | [] => true
      | lastEntry :: _ =>
        if lastEntry.details = conciseUpdate then false
        else if lastEntry.action = "Analysis Progress" then false
        else true
    ⟨"unknown",
      if shouldAdd then addHistoryEntry history "Analysis Update" "in_progress" conciseUpdate
      else history,
      isAnalyzing, currentStatus, false⟩

/-- `parseAnalysisResponse` (useAnalysis.ts lines 526-656): the structured
JSON fast path first (lines 528-549), then the text heuristics.  Inputs are
the closure-captured state (`analysisHistory`, `isAnalyzing`,
`currentStatus`) and the response text. -/
def parseAnalysisResponse (history : List HistoryEntry) (isAnalyzing : Bool)
    (currentStatus : String) (response : String) : ParseOutcome :=
  let structured : Option ParseOutcome :=
    match jsonParse response with
    | none => none
    | some statusObj =>
      match jsStatusLower statusObj with
      | none => none
      | some status =>
        if status = "completed" ∨ status = "finished" then
          some ⟨"completed", history, isAnalyzing, currentStatus, true⟩
        else if status = "error" ∨ status = "failed" then
          some ⟨"error",
            addHistoryEntry history "Analysis Failed" "error"
              (statusField statusObj "message" "Analysis failed"),
            false, "error", false⟩
        else if status = "processing" ∨ status = "in_progress" ∨ status = "analyzing" then
          some ⟨"in_progress",
            addHistoryEntry history "Analysis Progress" "in_progress"
              (statusField statusObj "progress" "Analysis in progress"),
            isAnalyzing, currentStatus, false⟩
        else none
  match structured with
  | some out => out
  | none => parseTextResponse history isAnalyzing currentStatus response

/-- C1: the spec says a failing health check is classified
`health_check_failed` and logged distinctly, but the first health-check
test (useAnalysis.ts line 552) matches any text containing
`System Health Check` — failure signal or not — and returns `health_check`
without logging, so the `health_check_failed` branch (lines 563-568) is
unreachable.  At the failing input `System Health Check failed` the
classifier returns `health_check` and appends nothing; a success-signal
health check also returns `health_check` with nothing appended (that half
of the claim holds). -/
theorem claim_C1 :
    jsIncludes "System Health Check failed" "System Health Check" = true
    ∧ jsIncludes "System Health Check failed" "failed" = true
    ∧ parseAnalysisResponse [] true "analyzing" "System Health Check failed"
        = ⟨"health_check", [], true, "analyzing", false⟩
    ∧ parseAnalysisResponse [] true "analyzing"
        "System Health Check: All systems are operational"
        = ⟨"health_check", [], true, "analyzing", false⟩ :=
  ⟨by rfl, by rfl, by rfl, by rfl⟩

/-- C3 counterexample: a response containing both the
`process may take 2-10 minutes` phrase and the
`You can now ask me questions` phrase, but also the words
`System Health Check`, is classified `health_check` — not `completed` —
and schedules no completion, because the health-check suppression branch
precedes the completion branch. -/
theorem claim_C3_counterexample :
    jsIncludes
        "System Health Check: This process may take 2-10 minutes. You can now ask me questions."
        "process may take 2-10 minutes" = true
    ∧ jsIncludes
        "System Health Check: This process may take 2-10 minutes. You can now ask me questions."
        "You can now ask me questions" = true
    ∧ (parseAnalysisResponse [] true "analyzing"
        "System Health Check: This process may take 2-10 minutes. You can now ask me questions.").result
        = "health_check"
    ∧ (parseAnalysisResponse [] true "analyzing"
        "System Health Check: This process may take 2-10 minutes. You can now ask me questions.").completeScheduled
        = false :=
  ⟨by rfl, by rfl, by rfl, by rfl⟩

/-- C3 (amended): for every response text that reaches the text heuristics
(no parseable JSON status) and carries no health-check marker, containing
both the `process may take 2-10 minutes` phrase and the
`You can now ask me questions` phrase forces classification `completed`
with the completion routine scheduled — never `in_progress` — and appends
no history entry, even though progress keywords may also be present. -/
theorem claim_C3 (history : List HistoryEntry) (isAnalyzing : Bool)
    (currentStatus : String) (response : String)
    (hjson : jsonParse response = none)
    (h1 : jsIncludes response "System Health Check" = false)
    (h2 : jsIncludes response "All systems are operational" = false)
    (h3 : jsIncludes response "All systems operational and ready" = false)
    (h4 : jsIncludes response "process may take 2-10 minutes" = true)
    (h5 : jsIncludes response "You can now ask me questions" = true) :
    parseAnalysisResponse history isAnalyzing currentStatus response
      = ⟨"completed", history, isAnalyzing, currentStatus, true⟩ := by
  unfold parseAnalysisResponse parseTextResponse
  simp only [hjson, h1, h2, h3, h4, h5, Bool.false_or, Bool.or_false, Bool.or_true,
    Bool.true_or, Bool.false_and, Bool.and_false]
  rfl

/-- Witness for C3 at a concrete progress-plus-completion response. -/
theorem claim_C3_witness :
    parseAnalysisResponse [] true "analyzing"
      "Repository cloning initiated. This process may take 2-10 minutes. You can now ask me questions."
      = ⟨"completed", [], true, "analyzing", true⟩ :=
  claim_C3 [] true "analyzing"
    "Repository cloning initiated. This process may take 2-10 minutes. You can now ask me questions."
    (by rfl) (by rfl) (by rfl) (by rfl) (by rfl) (by rfl)

/-! ## Persistent session store (`sessionStorage.ts`) -/

/-- `SESSION_EXPIRY_HOURS` (sessionStorage.ts line 22). -/
def SESSION_EXPIRY_HOURS : Nat := 24

/-- Trim JSON/JS whitespace at both ends. -/
def trimWsBoth (cs : List Char) : List Char :=
  ((skipWs ((skipWs cs).reverse)).reverse)

/-- A signed decimal numeric literal as accepted by JavaScript `Number()`
on a trimmed non-empty string: optional sign, digits around an optional
dot (at least one digit overall), optional exponent, nothing left over.
Hexadecimal/binary/octal literals and `Infinity` are modelled as `NaN`
(`none`); no session record round-trips through them. -/
def parseSignedDecimal (cs : List Char) : Option JsNum :=
  let signAndRest : Bool × List Char :=
    match cs with
    | '+' :: r => (false, r)
    | '-' :: r => (true, r)
    | _ => (false, cs)
  match List.span Char.isDigit signAndRest.2 with
  | (intDs, rest1) =>
    let fracAndRest : List Char × List Char :=
      match rest1 with
      | '.' :: r =>
        match List.span Char.isDigit r with
        | (ds, r2) => (ds, r2)
      | _ => ([], rest1)
    if intDs = [] ∧ fracAndRest.1 = [] then none
    else
      let mant : Int := (digitsToNat intDs * 10 ^ fracAndRest.1.length
        + digitsToNat fracAndRest.1 : Nat)
      let mant : Int := if signAndRest.1 then -mant else mant
      match fracAndRest.2 with
      | [] => some ⟨mant, -(fracAndRest.1.length : Int)⟩
      | c :: r =>
        if c = 'e' ∨ c = 'E' then
          match parseExpPart r with
          | some (e, []) => some ⟨mant, e - fracAndRest.1.length⟩
          | _ => none
        else none

/-- JavaScript `Number(s)` on strings: whitespace-only is `0`, otherwise a
signed decimal literal, else `NaN`. -/
def jsStringToNumber (s : String) : Option JsNum :=
  match trimWsBoth s.data with
  | [] => some ⟨0, 0⟩
  | cs => parseSignedDecimal cs

/-- JavaScript number coercion of `sessionData.timestamp` inside
`currentTime - sessionData.timestamp`, with `none` standing both for an
`undefined` input and for a `NaN` result.  An empty array coerces (via its
empty joined string) to `0`; the coercion of non-empty arrays goes through
their joined string and is modelled as `NaN` — no claim involves an array
timestamp. -/
def jsToNumber : Option Json → Option JsNum
  | none => none
  | some Json.null => some ⟨0, 0⟩
  | some (Json.bool b) => some ⟨if b then 1 else 0, 0⟩
  | some (Json.num v) => some v
  | some (Json.str s) => jsStringToNumber s
  | some (Json.arr []) => some ⟨0, 0⟩
  | some (Json.arr (_ :: _)) => none
  | some (Json.obj _) => none

/-- JavaScript `>` where the left operand may be `NaN` (`none`): any
comparison with `NaN` is false. -/
def jsGtNaN (a : Option JsNum) (b : JsNum) : Bool :=
  match a with
  | none => false
  | some x => x.gtv b

/-- `SessionStorage.getSession` (sessionStorage.ts lines 47-75), over the
current cookie payload (`none` when `Cookies.get` yields `undefined`) and
the current time `now` (`Date.now()`, integer milliseconds).  Returns the
value handed to the caller (the parsed JSON, which the TypeScript merely
casts to `RepositorySessionData`; `none` for `null`) together with whether
`clearSession` — active cookie removal — was invoked: a missing or empty
cookie is reported absent without clearing; an unparseable payload throws
inside the `try`, is caught, cleared and reported absent; member access on
a parsed `null` likewise; an expired record is cleared and reported
absent. -/
def getSession : Option String → Int → Option Json × Bool
  | none, _ => (none, false)
  | some s, now =>
    if s = "" then (none, false)
    else
      match jsonParse s with
      | none => (none, true)
      | some sessionData =>
        match jsField sessionData "timestamp" with
        | Except.error _ => (none, true)
        | Except.ok tsField =>
          let sessionAge : Option JsNum := (jsToNumber tsField).map (JsNum.sub ⟨now, 0⟩)
          let maxAge : Int := (SESSION_EXPIRY_HOURS : Int) * 60 * 60 * 1000
          if jsGtNaN sessionAge ⟨maxAge, 0⟩ then (none, true)
          else (some sessionData, false)

/-- C6: reading a persisted session record whose stored timestamp lies more
than 24 hours (86400000 ms) before the current time yields no session and
actively removes the cookie. -/
theorem claim_C6 (s : String) (j : Json) (ts now : Int)
    (hp : jsonParse s = some j)
    (ht : jsField j "timestamp" = Except.ok (some (Json.num ⟨ts, 0⟩)))
    (hexp : now - ts > 86400000) :
    getSession (some s) now = (none, true) := by
  have hne : s ≠ "" := by
    intro h
    rw [h, show jsonParse "" = none from rfl] at hp
    cases hp
  have hgt : jsGtNaN ((jsToNumber (some (Json.num ⟨ts, 0⟩))).map (JsNum.sub ⟨now, 0⟩))
      ⟨(SESSION_EXPIRY_HOURS : Int) * 60 * 60 * 1000, 0⟩ = true := by
    simp only [jsToNumber, Option.map, jsGtNaN, JsNum.gtv, JsNum.sub, SESSION_EXPIRY_HOURS]
    norm_num
    omega
  simp only [getSession]
  rw [if_neg hne]
  simp only [hp, ht, hgt]
  rfl

/-- Witness for C6: a cookie stamped at epoch 0, read just past 24 hours. -/
theorem claim_C6_witness :
    getSession (some "\x7b\"timestamp\":0\x7d") 86400001 = (none, true) :=
  claim_C6 "\x7b\"timestamp\":0\x7d" (Json.obj [("timestamp", Json.num ⟨0, 0⟩)]) 0 86400001
    (by rfl) (by rfl) (by norm_num)

/-- C10: a cookie payload that is present but is corrupted JSON
(`JSON.parse` throws) yields no session and actively removes the cookie,
so the corrupted record neither reaches the caller nor survives the
read. -/
theorem claim_C10 (s : String) (now : Int) (hne : s ≠ "") (hp : jsonParse s = none) :
    getSession (some s) now = (none, true) := by
  simp only [getSession]
  rw [if_neg hne]
  simp only [hp]

/-- Witness for C10 at a concrete corrupted payload. -/
theorem claim_C10_witness : getSession (some "corrupted cookie") 0 = (none, true) :=
  claim_C10 "corrupted cookie" 0 (by decide) (by rfl)

/-! ## Controller state and the session-restore effect -/

/-- One question/answer exchange (`QAEntry` in sessionStorage.ts).  The
`id`/`timestamp` wall-clock fields are omitted; no claim mentions them. -/
structure QAEntry where
  question : String
  answer : String
deriving DecidableEq

/-- `RepositorySessionData` (sessionStorage.ts lines 11-19), the declared
shape of a persisted session record. -/
structure RepositorySessionData where
  repoUrl : String
  sessionId : String
  fileStructure : FTree
  currentStatus : String
  userEmail : String
  timestamp : Int
  qaHistory : List QAEntry

/-- The `useAnalysis` state relevant to the claims, as captured by one
render closure (useAnalysis.ts lines 331-341).  `sessionId` starts as the
identifier generated at hook creation (line 338). -/
structure AnalysisState where
  repoUrl : String
  isAnalyzing : Bool
  analysisHistory : List HistoryEntry
  currentStatus : String
  fileStructure : FTree
  sessionId : String
  qaHistory : List QAEntry
  sessionRestored : Bool

/-- `Object.keys(t).length` of the JavaScript object behind a tree node:
its children plus the `isFile`/`fullPath` pair when present. -/
def jsKeysLength (t : FTree) : Nat :=
  t.children.length + (match t.info with | some _ => 2 | none => 0)

/-- The session-restore effect (useAnalysis.ts lines 400-445), run on mount:
`userEmail` is the hook argument, `stored` the result of
`SessionStorage.getSession()` under the declared
`RepositorySessionData` interface (`none` for `null`; the defensive
`storedSession.qaHistory || []` and `storedSession.fileStructure || \x7b\x7d`
guards are identities under that interface), and `st` the state captured by
the effect closure — in particular `st.sessionId` is the identifier
generated at hook initialization.  Yields the state after the effect and
the `(sessionId, email, repositoryUrl)` argument triple of the
`apiService.continueUserSession` notification when one is issued; the call
itself is best-effort (both its then and catch branches only log). -/
def sessionRestoreEffect : Option String → Option RepositorySessionData → AnalysisState →
    AnalysisState × Option (String × String × String)
  | none, _, st => (st, none)
  | some u, stored, st =>
    if u = "" then (st, none)
    else if st.sessionRestored then (st, none)
    else
      match stored with
      | some storedSession =>
        if storedSession.userEmail = u then
          let restoredStatus :=
            if storedSession.currentStatus = "analyzing"
                ∧ 0 < jsKeysLength storedSession.fileStructure then "completed"
            else storedSession.currentStatus
          let st' : AnalysisState :=
            { repoUrl := storedSession.repoUrl
              isAnalyzing := st.isAnalyzing
              analysisHistory := addHistoryEntry st.analysisHistory "Session Restored" "completed"
                ("Restored session for " ++ storedSession.repoUrl ++ " with "
                  ++ toString storedSession.qaHistory.length ++ " Q&A entries")
              currentStatus := restoredStatus
              fileStructure := storedSession.fileStructure
              sessionId := storedSession.sessionId
              qaHistory := storedSession.qaHistory
              sessionRestored := true }
          (st', if storedSession.repoUrl = "" then none
            else some (st.sessionId, u, storedSession.repoUrl))
        else ({ st with sessionRestored := true }, none)
      | none => ({ st with sessionRestored := true }, none)

/-- C2 counterexample: on a valid restore whose stored identifier differs
from the hook-initial one, the adopted state identifier is the stored one,
but the backend continue notification carries the initially generated
pre-restore identifier — not the settled one, contradicting the claim. -/
theorem claim_C2_counterexample :
    (sessionRestoreEffect (some "u@x")
        (some ⟨"https://r", "session_restored", FTree.node none [], "completed", "u@x", 0, []⟩)
        ⟨"", false, [], "idle", FTree.node none [], "session_initial", [], false⟩).1.sessionId
      = "session_restored"
    ∧ (sessionRestoreEffect (some "u@x")
        (some ⟨"https://r", "session_restored", FTree.node none [], "completed", "u@x", 0, []⟩)
        ⟨"", false, [], "idle", FTree.node none [], "session_initial", [], false⟩).2
      = some ("session_initial", "u@x", "https://r")
    ∧ "session_initial" ≠ "session_restored" :=
  ⟨by rfl, by rfl, by decide⟩

/-- C2 (amended): on a valid (user-matching, not-yet-restored) restore the
controller adopts the record's session identifier verbatim into state —
never minting a new one in this path — but the backend continue
notification, issued only when the stored record names a repository,
carries the closure-captured identifier generated at hook initialization
(the pre-restore `st.sessionId`), not the adopted one. -/
theorem claim_C2 (u : String) (sd : RepositorySessionData) (st : AnalysisState)
    (hu : u ≠ "") (hr : st.sessionRestored = false) (hm : sd.userEmail = u) :
    (sessionRestoreEffect (some u) (some sd) st).1.sessionId = sd.sessionId
    ∧ (sessionRestoreEffect (some u) (some sd) st).2
      = (if sd.repoUrl = "" then none else some (st.sessionId, u, sd.repoUrl)) := by
  simp only [sessionRestoreEffect, if_neg hu, hr, if_pos hm]
  exact ⟨rfl, rfl⟩

/-- Witness for C2 at a concrete valid restore. -/
theorem claim_C2_witness :
    (sessionRestoreEffect (some "a@b")
        (some ⟨"https://repo", "session_2", FTree.node none [], "completed", "a@b", 5, []⟩)
        ⟨"", false, [], "idle", FTree.node none [], "session_1", [], false⟩).1.sessionId
      = "session_2"
    ∧ (sessionRestoreEffect (some "a@b")
        (some ⟨"https://repo", "session_2", FTree.node none [], "completed", "a@b", 5, []⟩)
        ⟨"", false, [], "idle", FTree.node none [], "session_1", [], false⟩).2
      = (if ("https://repo" : String) = "" then none
        else some ("session_1", "a@b", "https://repo")) :=
  claim_C2 "a@b" ⟨"https://repo", "session_2", FTree.node none [], "completed", "a@b", 5, []⟩
    ⟨"", false, [], "idle", FTree.node none [], "session_1", [], false⟩
    (by decide) rfl rfl

/-- C7: a stored record whose `userEmail` differs from the active user
identity is never merged: every session-relevant state field is left
unchanged (only the restoration guard flips) and no backend notification is
issued. -/
theorem claim_C7 (u : String) (sd : RepositorySessionData) (st : AnalysisState)
    (hne : sd.userEmail ≠ u) :
    (sessionRestoreEffect (some u) (some sd) st).1.repoUrl = st.repoUrl
    ∧ (sessionRestoreEffect (some u) (some sd) st).1.sessionId = st.sessionId
    ∧ (sessionRestoreEffect (some u) (some sd) st).1.fileStructure = st.fileStructure
    ∧ (sessionRestoreEffect (some u) (some sd) st).1.currentStatus = st.currentStatus
    ∧ (sessionRestoreEffect (some u) (some sd) st).1.qaHistory = st.qaHistory
    ∧ (sessionRestoreEffect (some u) (some sd) st).1.analysisHistory = st.analysisHistory
    ∧ (sessionRestoreEffect (some u) (some sd) st).2 = none := by
  by_cases hu : u = ""
  · simp [sessionRestoreEffect, hu]
  · by_cases hres : st.sessionRestored
    · simp [sessionRestoreEffect, hu, hres]
    · simp [sessionRestoreEffect, hu, hres, hne]

/-- Witness for C7: a record for one user read under another identity. -/
theorem claim_C7_witness :
    (sessionRestoreEffect (some "b@y")
        (some ⟨"https://repo", "session_2", FTree.node none [], "completed", "a@x", 5, []⟩)
        ⟨"r0", true, [], "analyzing", FTree.node none [], "session_1", [], false⟩).1.sessionId
      = "session_1"
    ∧ (sessionRestoreEffect (some "b@y")
        (some ⟨"https://repo", "session_2", FTree.node none [], "completed", "a@x", 5, []⟩)
        ⟨"r0", true, [], "analyzing", FTree.node none [], "session_1", [], false⟩).2 = none :=
  ⟨(claim_C7 "b@y" ⟨"https://repo", "session_2", FTree.node none [], "completed", "a@x", 5, []⟩
      ⟨"r0", true, [], "analyzing", FTree.node none [], "session_1", [], false⟩
      (by decide)).2.1,
    (claim_C7 "b@y" ⟨"https://repo", "session_2", FTree.node none [], "completed", "a@x", 5, []⟩
      ⟨"r0", true, [], "analyzing", FTree.node none [], "session_1", [], false⟩
      (by decide)).2.2.2.2.2.2⟩

/-- C9: on a valid restore, a stored status `analyzing` together with a
non-empty stored file tree (some JavaScript key present) is rewritten to
`completed`; in every other case the stored status is adopted verbatim. -/
theorem claim_C9 (u : String) (sd : RepositorySessionData) (st : AnalysisState)
    (hu : u ≠ "") (hr : st.sessionRestored = false) (hm : sd.userEmail = u) :
    ((sd.currentStatus = "analyzing" ∧ 0 < jsKeysLength sd.fileStructure) →
      (sessionRestoreEffect (some u) (some sd) st).1.currentStatus = "completed")
    ∧ (¬(sd.currentStatus = "analyzing" ∧ 0 < jsKeysLength sd.fileStructure) →
      (sessionRestoreEffect (some u) (some sd) st).1.currentStatus = sd.currentStatus) := by
  simp only [sessionRestoreEffect, if_neg hu, hr, if_pos hm]
  constructor
  · intro h
    simp [if_pos h]
  · intro h
    simp [if_neg h]

/-- Witness for C9: an `analyzing` record with one stored file restores as
`completed`; an `error` record restores verbatim. -/
theorem claim_C9_witness :
    (sessionRestoreEffect (some "a@b")
        (some ⟨"https://repo", "s2", FTree.node none [("src", FTree.node (some "src") [])],
          "analyzing", "a@b", 5, []⟩)
        ⟨"", false, [], "idle", FTree.node none [], "s1", [], false⟩).1.currentStatus
      = "completed"
    ∧ (sessionRestoreEffect (some "a@b")
        (some ⟨"https://repo", "s2", FTree.node none [], "error", "a@b", 5, []⟩)
        ⟨"", false, [], "idle", FTree.node none [], "s1", [], false⟩).1.currentStatus
      = "error" :=
  ⟨(claim_C9 "a@b" ⟨"https://repo", "s2", FTree.node none [("src", FTree.node (some "src") [])],
        "analyzing", "a@b", 5, []⟩
      ⟨"", false, [], "idle", FTree.node none [], "s1", [], false⟩
      (by decide) rfl rfl).1 ⟨rfl, by decide⟩,
    (claim_C9 "a@b" ⟨"https://repo", "s2", FTree.node none [], "error", "a@b", 5, []⟩
      ⟨"", false, [], "idle", FTree.node none [], "s1", [], false⟩
      (by decide) rfl rfl).2 (by decide)⟩

/-! ## Completion routine -/

/-- Report of one `completeAnalysis` run: the resulting state, whether the
textual chat fallback (`sendChatMessage('List all the Java files in the
repository', sessionId)`) was attempted, and the session record written by
`storeSessionData`, if any. -/
structure CompleteOutcome where
  state : AnalysisState
  fallbackAttempted : Bool
  savedSession : Option RepositorySessionData

/-- `storeSessionData` (useAnalysis.ts lines 346-360): writes a record only
when the closure-captured `userEmail`, `repoUrl` and `sessionId` are all
truthy, stamping `Date.now()` (passed as `now`). -/
def storeSessionData (userEmail : Option String) (st : AnalysisState) (now : Int) :
    Option RepositorySessionData :=
  match userEmail with
  | none => none
  | some u =>
    if u = "" ∨ st.repoUrl = "" ∨ st.sessionId = "" then none
    else some ⟨st.repoUrl, st.sessionId, st.fileStructure, st.currentStatus, u, now, st.qaHistory⟩

/-- `completeAnalysis` (useAnalysis.ts lines 469-505): stops analyzing,
marks `completed`, logs, and — when a repository URL is set — fetches the
file list (`fetch` is that call's outcome).  On success it builds and
installs the tree, logs, and calls `storeSessionData` (whose `useCallback`
closure still reads the render state `st`, not the just-installed tree).
On failure it logs, and, guarded only by `if (sessionId)`, attempts the
textual chat fallback (`chat` is that call's outcome), logging either way
without touching the file tree.  With no repository URL it only logs. -/
def completeAnalysis (userEmail : Option String) (st : AnalysisState)
    (fetch : Except Unit (List String)) (chat : Except Unit Unit) (now : Int) :
    CompleteOutcome :=
  let st1 : AnalysisState := { st with
    isAnalyzing := false
    currentStatus := "completed"
    analysisHistory := addHistoryEntry st.analysisHistory "Analysis Complete" "completed"
      "Analysis manually completed - loading files..." }
  if st.repoUrl = "" then
    ⟨{ st1 with analysisHistory := (addHistoryEntry st1.analysisHistory "File Structure" "error"
        "No repository URL available") }, false, none⟩
  else
    match fetch with
    | Except.ok files =>
      let organizedFiles := organizeFileStructure files
      ⟨{ st1 with
          fileStructure := organizedFiles
          analysisHistory := (addHistoryEntry st1.analysisHistory "File Structure" "loaded"
            (toString files.length ++ " Java files loaded successfully")) },
        false, storeSessionData userEmail st now⟩
    | Except.error _ =>
      let st2 := { st1 with analysisHistory := (addHistoryEntry st1.analysisHistory
          "File Structure" "error" "Could not load file structure from API") }
      if st.sessionId = "" then ⟨st2, false, none⟩
      else
        match chat with
        | Except.ok _ =>
          ⟨{ st2 with analysisHistory := (addHistoryEntry st2.analysisHistory "File Structure"
              "completed" "Requested file list from chat API as fallback") }, true, none⟩
        | Except.error _ =>
          ⟨{ st2 with analysisHistory := (addHistoryEntry st2.analysisHistory "File Structure"
              "error" "Could not load file structure via any method") }, true, none⟩

/-- C5 counterexample: with no user identity at all (`userEmail = none`)
but a session identifier present, a failed file-list fetch still attempts
the chat fallback — the guard (useAnalysis.ts line 491) checks only
`sessionId`, so the fallback is not conditioned on both being available. -/
theorem claim_C5_counterexample :
    (completeAnalysis none
      ⟨"https://repo", true, [], "analyzing", FTree.node none [], "session_1", [], true⟩
      (Except.error ()) (Except.ok ()) 0).fallbackAttempted = true := by
  rfl

/-- C5 (amended): when the file-list fetch fails (with a repository URL
set), the textual chat fallback is attempted exactly when a session
identifier is available — the user identity is not consulted — and the
fallback never populates the file tree or writes a session record; it only
logs. -/
theorem claim_C5 (userEmail : Option String) (st : AnalysisState)
    (chat : Except Unit Unit) (now : Int) (hrepo : st.repoUrl ≠ "") :
    ((completeAnalysis userEmail st (Except.error ()) chat now).fallbackAttempted
        = (if st.sessionId = "" then false else true))
    ∧ (completeAnalysis userEmail st (Except.error ()) chat now).state.fileStructure
        = st.fileStructure
    ∧ (completeAnalysis userEmail st (Except.error ()) chat now).savedSession = none := by
  by_cases hs : st.sessionId = ""
  · simp [completeAnalysis, hrepo, hs]
  · cases chat with
    | ok _ => simp [completeAnalysis, hrepo, hs]
    | error _ => simp [completeAnalysis, hrepo, hs]

/-- Witness for C5 at a concrete failed fetch without user identity. -/
theorem claim_C5_witness :
    ((completeAnalysis none
        ⟨"https://repo", true, [], "analyzing", FTree.node none [], "session_1", [], true⟩
        (Except.error ()) (Except.error ()) 0).fallbackAttempted
      = (if ("session_1" : String) = "" then false else true))
    ∧ (completeAnalysis none
        ⟨"https://repo", true, [], "analyzing", FTree.node none [], "session_1", [], true⟩
        (Except.error ()) (Except.error ()) 0).state.fileStructure = FTree.node none []
    ∧ (completeAnalysis none
        ⟨"https://repo", true, [], "analyzing", FTree.node none [], "session_1", [], true⟩
        (Except.error ()) (Except.error ()) 0).savedSession = none :=
  claim_C5 none ⟨"https://repo", true, [], "analyzing", FTree.node none [], "session_1", [], true⟩
    (Except.error ()) 0 (by decide)

/-! ## Backend gateway timeouts -/

/-- The axios client default timeout (sessionStorage.ts, v1 api client,
line 347): `timeout: 1200000`, annotated `// 2 minutes for long-running
operations` — query calls such as `sendChatMessage` run under it. -/
def apiDefaultTimeoutMs : Nat := 1200000

/-- The per-request timeout of `analyzeRepositoryWithChat` (line 496):
`timeout: 60000 // 1 minute timeout`. -/
def analyzeRepositoryWithChatTimeoutMs : Nat := 60000

/-- C8: the analysis-initiation call does use a strictly shorter timeout
(one minute) than the query calls, but the default timeout the query calls
carry is 1,200,000 ms = 20 minutes — an order of magnitude beyond the
claimed one-to-two minutes, and tenfold its own inline comment of 2
minutes (120,000 ms): the code contradicts its documentation. -/
theorem claim_C8 :
    apiDefaultTimeoutMs = 20 * 60 * 1000
    ∧ ¬ apiDefaultTimeoutMs ≤ 2 * 60 * 1000
    ∧ analyzeRepositoryWithChatTimeoutMs < apiDefaultTimeoutMs
    ∧ analyzeRepositoryWithChatTimeoutMs = 60 * 1000 := by
  refine ⟨by norm_num [apiDefaultTimeoutMs], by norm_num [apiDefaultTimeoutMs], ?_, ?_⟩
  · norm_num [apiDefaultTimeoutMs, analyzeRepositoryWithChatTimeoutMs]
  · norm_num [analyzeRepositoryWithChatTimeoutMs]

/-! ## Raw JavaScript-object semantics of the tree builder

The idealized `FTree` view above keeps the `isFile`/`fullPath` leaf payload
outside the key space, but the source's `!current[part]` test and
`current = current[part]` descent operate on the raw object, where those
payload keys are ordinary properties.  A path segment named after them can
make the builder descend into a primitive — whereupon the next property
*assignment* is a strict-mode TypeError (all ES modules run strict) — or
overwrite a falsy `fullPath` string.  The definitions below model that raw
semantics; property reads consult own properties (plus the boxed-string
`length`/index data); prototype-chain members (`toString`, `valueOf`,
`__proto__`, ...) are not modelled, and the amended C4 excludes segments
naming them. -/

/-- A JavaScript value reachable while the builder runs: the `true` of an
`isFile` marker, a boxed-string `length`, a `fullPath` (or index) string,
and plain objects (tree nodes and leaves). -/
inductive JsVal where
  | vbool (b : Bool)
  | vnum (n : Nat)
  | vstr (s : String)
  | vobj (fields : List (String × JsVal))

/-- Own-property lookup on an object literal (keys unique by construction). -/
def lookupField : List (String × JsVal) → String → Option JsVal
  | [], _ => none
  | (k', v) :: rest, k => if k' = k then some v else lookupField rest k

/-- Replace the value at the first occurrence of key `k`, keeping its
position, as JavaScript assignment to an existing key does. -/
def updateField : List (String × JsVal) → String → JsVal → List (String × JsVal)
  | [], _, _ => []
  | (k', v) :: rest, k, w => if k' = k then (k', w) :: rest else (k', v) :: updateField rest k w

/-- JavaScript truthiness of the values above. -/
def jsTruthyVal : JsVal → Bool
  | JsVal.vbool b => b
  | JsVal.vnum n => if n = 0 then false else true
  | JsVal.vstr s => if s = "" then false else true
  | JsVal.vobj _ => true

/-- The leaf object `\x7b isFile: true, fullPath: file \x7d` as created by the
builder, key order included. -/
def leafObj (file : String) : JsVal :=
  JsVal.vobj [("isFile", JsVal.vbool true), ("fullPath", JsVal.vstr file)]

/-- A canonical decimal index string: digits only, no leading zero except
`0` itself. -/
def decIndex? : List Char → Option Nat
  | [] => none
  | c :: rest =>
    if (c :: rest).all Char.isDigit ∧ (c ≠ '0' ∨ rest = []) then some (digitsToNat (c :: rest))
    else none

/-- Own-data properties of primitives as the builder's `current[part]` read
observes them: a boxed string exposes `length` and its canonical integer
indices (one-character strings); booleans and numbers expose none. -/
def primProp : JsVal → String → Option JsVal
  | JsVal.vstr s, p =>
    if p = "length" then some (JsVal.vnum s.length)
    else
      match decIndex? p.data with
      | some i =>
        if i < s.length then some (JsVal.vstr (String.mk [s.data.getD i (Char.ofNat 0)]))
        else none
      | none => none
  | _, _ => none

/-- One `files.forEach` iteration of `organizeFileStructure` over raw
JavaScript values.  On an object, a truthy existing property is descended
into, a falsy or missing one is overwritten/created (`current[part] = ...`)
and then descended into.  On a primitive, a property read may still
succeed, but the assignment a missing or falsy property triggers is an
assignment to a property of a primitive — a strict-mode TypeError,
modelled as `Except.error`; writes cannot reach the tree through a
primitive, so a successful read-only descent leaves the value unchanged. -/
def insertPartsJs : JsVal → List String → String → Except Unit JsVal
  | v, [], _ => Except.ok v
  | JsVal.vobj fields, p :: rest, file =>
    (match lookupField fields p with
     | some w =>
       if jsTruthyVal w then
         match insertPartsJs w rest file with
         | Except.ok w' => Except.ok (JsVal.vobj (updateField fields p w'))
         | Except.error e => Except.error e
       else
         match insertPartsJs (if rest = [] then leafObj file else JsVal.vobj []) rest file with
         | Except.ok w' => Except.ok (JsVal.vobj (updateField fields p w'))
         | Except.error e => Except.error e
     | none =>
       match insertPartsJs (if rest = [] then leafObj file else JsVal.vobj []) rest file with
       | Except.ok w' => Except.ok (JsVal.vobj (fields ++ [(p, w')]))
       | Except.error e => Except.error e)
  | v, p :: rest, file =>
    (match primProp v p with
     | some w =>
       if jsTruthyVal w then
         match insertPartsJs w rest file with
         | Except.ok _ => Except.ok v
         | Except.error e => Except.error e
       else Except.error ()
     | none => Except.error ())

/-- The `files.forEach` loop over raw values: an insertion that throws
aborts the whole builder (the exception propagates out of `forEach`). -/
def organizeFileStructureJsAux : JsVal → List String → Except Unit JsVal
  | v, [] => Except.ok v
  | v, f :: rest =>
    match insertPartsJs v (jsSplitSlash f) f with
    | Except.ok v' => organizeFileStructureJsAux v' rest
    | Except.error e => Except.error e

/-- `organizeFileStructure` over raw JavaScript values, from the empty
root object. -/
def organizeFileStructureJs (files : List String) : Except Unit JsVal :=
  organizeFileStructureJsAux (JsVal.vobj []) files

/-- Walking path segments from the root of a raw-value tree — the spec's
observation for the round-trip; there is no descent into primitives. -/
def walkJs : JsVal → List String → Option JsVal
  | v, [] => some v
  | JsVal.vobj fields, p :: rest =>
    (match lookupField fields p with
     | some w => walkJs w rest
     | none => none)
  | _, _ :: _ => none

/-- The recorded full path of a well-formed leaf value: present exactly
when the value carries `isFile: true` and a *string* `fullPath`. -/
def leafFullPath : JsVal → Option String
  | JsVal.vobj fields =>
    (match lookupField fields "isFile", lookupField fields "fullPath" with
     | some (JsVal.vbool true), some (JsVal.vstr fp) => some fp
     | _, _ => none)
  | _ => none

/-- Whether a value is marked as a file leaf (`value.isFile` truthy),
whether or not its `fullPath` is still a string. -/
def isFileMarked : JsVal → Bool
  | JsVal.vobj fields =>
    (match lookupField fields "isFile" with
     | some w => jsTruthyVal w
     | none => false)
  | _ => false

/-- The leaf payload of a node as raw object fields (leaves are created
whole, payload first). -/
def payloadFields : Option String → List (String × JsVal)
  | some fp => [("isFile", JsVal.vbool true), ("fullPath", JsVal.vstr fp)]
  | none => []

mutual

/-- The embedding of the idealized tree into raw JavaScript values:
payload pair first, children in insertion order. -/
def toJsVal : FTree → JsVal
  | .node info ch => JsVal.vobj (payloadFields info ++ toJsValL ch)

/-- Children of an idealized node as raw object fields. -/
def toJsValL : List (String × FTree) → List (String × JsVal)
  | [] => []
  | (k, c) :: rest => (k, toJsVal c) :: toJsValL rest

end

/-- Path segments that collide with the builder's own representation: the
two leaf-marker keys, plus the `Object.prototype` members that a property
read on any object literal finds through the prototype chain. -/
def reservedSegmentKeys : List String :=
  ["isFile", "fullPath", "constructor", "hasOwnProperty", "isPrototypeOf",
    "propertyIsEnumerable", "toLocaleString", "toString", "valueOf",
    "__defineGetter__", "__defineSetter__", "__lookupGetter__", "__lookupSetter__",
    "__proto__"]

/-- No child key anywhere in an idealized tree is a leaf-marker key — true
of every tree built from marker-free path segments. -/
inductive WfKeys : FTree → Prop where
  | mk : ∀ info ch,
      (∀ k c, (k, c) ∈ ch → k ≠ "isFile" ∧ k ≠ "fullPath") →
      (∀ k c, (k, c) ∈ ch → WfKeys c) →
      WfKeys (FTree.node info ch)

/-! ### Equation and transfer lemmas for the raw builder -/

theorem insertPartsJs_nil (v : JsVal) (file : String) :
    insertPartsJs v [] file = Except.ok v := by
  cases v
  all_goals rfl

theorem insertPartsJs_vobj_found {fields : List (String × JsVal)} {p : String} {w : JsVal}
    (rest : List String) (file : String)
    (h : lookupField fields p = some w) (ht : jsTruthyVal w = true) :
    insertPartsJs (JsVal.vobj fields) (p :: rest) file
      = match insertPartsJs w rest file with
        | Except.ok w' => Except.ok (JsVal.vobj (updateField fields p w'))
        | Except.error e => Except.error e := by
  simp only [insertPartsJs, h, ht]
  rfl

theorem insertPartsJs_vobj_none {fields : List (String × JsVal)} {p : String}
    (rest : List String) (file : String)
    (h : lookupField fields p = none) :
    insertPartsJs (JsVal.vobj fields) (p :: rest) file
      = match insertPartsJs (if rest = [] then leafObj file else JsVal.vobj []) rest file with
        | Except.ok w' => Except.ok (JsVal.vobj (fields ++ [(p, w')]))
        | Except.error e => Except.error e := by
  simp only [insertPartsJs, h]

theorem orgAux_cons (v : JsVal) (f : String) (rest : List String) :
    organizeFileStructureJsAux v (f :: rest)
      = match insertPartsJs v (jsSplitSlash f) f with
        | Except.ok v' => organizeFileStructureJsAux v' rest
        | Except.error e => Except.error e := by
  simp only [organizeFileStructureJsAux]

theorem walkJs_nil (v : JsVal) : walkJs v [] = some v := by
  cases v
  all_goals rfl

theorem walkJs_vobj_some {fields : List (String × JsVal)} {p : String} {w : JsVal}
    (rest : List String) (h : lookupField fields p = some w) :
    walkJs (JsVal.vobj fields) (p :: rest) = walkJs w rest := by
  simp only [walkJs, h]

theorem walkJs_vobj_none {fields : List (String × JsVal)} {p : String}
    (rest : List String) (h : lookupField fields p = none) :
    walkJs (JsVal.vobj fields) (p :: rest) = none := by
  simp only [walkJs, h]

theorem walkJs_vbool (b : Bool) (p : String) (rest : List String) :
    walkJs (JsVal.vbool b) (p :: rest) = none := rfl

theorem walkJs_vstr (s : String) (p : String) (rest : List String) :
    walkJs (JsVal.vstr s) (p :: rest) = none := rfl

theorem toJsVal_node (info : Option String) (ch : List (String × FTree)) :
    toJsVal (FTree.node info ch) = JsVal.vobj (payloadFields info ++ toJsValL ch) := by
  simp [toJsVal]

theorem jsTruthyVal_toJsVal (t : FTree) : jsTruthyVal (toJsVal t) = true := by
  obtain ⟨info, ch⟩ := t
  rw [toJsVal_node]
  rfl

theorem lookupField_toJsValL (ch : List (String × FTree)) (p : String) :
    lookupField (toJsValL ch) p = (lookupChild ch p).map toJsVal := by
  induction ch with
  | nil => simp [toJsValL, lookupField, lookupChild]
  | cons hd tl ih =>
    obtain ⟨k, c⟩ := hd
    by_cases hk : k = p
    · simp [toJsValL, lookupField, lookupChild, hk]
    · simp [toJsValL, lookupField, lookupChild, hk, ih]

theorem updateField_toJsValL (ch : List (String × FTree)) (p : String) (w : FTree) :
    updateField (toJsValL ch) p (toJsVal w) = toJsValL (updateChild ch p w) := by
  induction ch with
  | nil => simp [toJsValL, updateField, updateChild]
  | cons hd tl ih =>
    obtain ⟨k, c⟩ := hd
    by_cases hk : k = p
    · simp [toJsValL, updateField, updateChild, hk]
    · simp [toJsValL, updateField, updateChild, hk, ih]

theorem toJsValL_append (ch : List (String × FTree)) (k : String) (c : FTree) :
    toJsValL (ch ++ [(k, c)]) = toJsValL ch ++ [(k, toJsVal c)] := by
  induction ch with
  | nil => simp [toJsValL]
  | cons hd tl ih =>
    obtain ⟨k', c'⟩ := hd
    simp [toJsValL, ih]

theorem lookupField_payload (info : Option String) (l : List (String × JsVal)) (p : String)
    (h1 : p ≠ "isFile") (h2 : p ≠ "fullPath") :
    lookupField (payloadFields info ++ l) p = lookupField l p := by
  have h1' : ¬ ("isFile" = p) := fun h => h1 h.symm
  have h2' : ¬ ("fullPath" = p) := fun h => h2 h.symm
  cases info
  all_goals simp [payloadFields, lookupField, h1', h2']

theorem updateField_payload (info : Option String) (l : List (String × JsVal)) (p : String)
    (w : JsVal) (h1 : p ≠ "isFile") (h2 : p ≠ "fullPath") :
    updateField (payloadFields info ++ l) p w = payloadFields info ++ updateField l p w := by
  have h1' : ¬ ("isFile" = p) := fun h => h1 h.symm
  have h2' : ¬ ("fullPath" = p) := fun h => h2 h.symm
  cases info
  all_goals simp [payloadFields, updateField, h1', h2']

theorem leafObj_toJsVal (file : String) : leafObj file = toJsVal (FTree.node (some file) []) := by
  rw [toJsVal_node]
  simp [leafObj, payloadFields, toJsValL]

theorem vobjNil_toJsVal : JsVal.vobj [] = toJsVal (FTree.node none []) := by
  rw [toJsVal_node]
  simp [payloadFields, toJsValL]

theorem leafFullPath_payload_some (fp : String) (l : List (String × JsVal)) :
    leafFullPath (JsVal.vobj (payloadFields (some fp) ++ l)) = some fp := rfl

/-! ### Well-formed key spaces and agreement of the two builders -/

theorem WfKeys.invKeys {info : Option String} {ch : List (String × FTree)}
    (h : WfKeys (FTree.node info ch)) :
    ∀ k c, (k, c) ∈ ch → k ≠ "isFile" ∧ k ≠ "fullPath" := by
  cases h with
  | mk _ _ hk _ => exact hk

theorem WfKeys.invSub {info : Option String} {ch : List (String × FTree)}
    (h : WfKeys (FTree.node info ch)) :
    ∀ k c, (k, c) ∈ ch → WfKeys c := by
  cases h with
  | mk _ _ _ hs => exact hs

theorem wfKeys_nilch (info : Option String) : WfKeys (FTree.node info []) :=
  WfKeys.mk info [] (fun _ _ h => absurd h (List.not_mem_nil _))
    (fun _ _ h => absurd h (List.not_mem_nil _))

theorem lookupChild_mem {ch : List (String × FTree)} {p : String} {sub : FTree}
    (h : lookupChild ch p = some sub) : (p, sub) ∈ ch := by
  induction ch with
  | nil => simp [lookupChild] at h
  | cons hd tl ih =>
    obtain ⟨k', t⟩ := hd
    by_cases hk : k' = p
    · subst hk
      simp only [lookupChild, if_pos rfl] at h
      injection h with h
      subst h
      exact List.mem_cons_self _ _
    · simp only [lookupChild, if_neg hk] at h
      exact List.mem_cons_of_mem _ (ih h)

theorem mem_updateChild {ch : List (String × FTree)} {p : String} {v : FTree}
    {kc : String × FTree} (h : kc ∈ updateChild ch p v) :
    kc ∈ ch ∨ ∃ c0, (kc.1, c0) ∈ ch ∧ kc.2 = v := by
  induction ch with
  | nil => simp [updateChild] at h
  | cons hd tl ih =>
    obtain ⟨k', t⟩ := hd
    by_cases hk : k' = p
    · simp only [updateChild, if_pos hk] at h
      rcases List.mem_cons.mp h with h | h
      · subst h
        right
        exact ⟨t, by simp, rfl⟩
      · left
        exact List.mem_cons_of_mem _ h
    · simp only [updateChild, if_neg hk] at h
      rcases List.mem_cons.mp h with h | h
      · left
        rw [h]
        exact List.mem_cons_self _ _
      · rcases ih h with h' | ⟨c0, hm, hv⟩
        · left
          exact List.mem_cons_of_mem _ h'
        · right
          exact ⟨c0, List.mem_cons_of_mem _ hm, hv⟩

theorem wfKeys_insertParts : ∀ (parts : List String),
    (∀ p ∈ parts, p ≠ "isFile" ∧ p ≠ "fullPath") →
    ∀ (t : FTree) (file : String), WfKeys t → WfKeys (insertParts t parts file) := by
  intro parts
  induction parts with
  | nil =>
    intro _ t file hw
    rw [insertParts_nil]
    exact hw
  | cons p rest ih =>
    intro hres t file hw
    have hp := hres p (List.mem_cons_self p rest)
    have hrest : ∀ q ∈ rest, q ≠ "isFile" ∧ q ≠ "fullPath" :=
      fun q hq => hres q (List.mem_cons_of_mem p hq)
    obtain ⟨info, ch⟩ := t
    match hl : lookupChild ch p with
    | some sub =>
      rw [insertParts_cons_some info rest file hl]
      refine WfKeys.mk _ _ ?_ ?_
      · intro k c hmem
        rcases mem_updateChild hmem with hm | ⟨c0, hm, _⟩
        · exact hw.invKeys k c hm
        · exact hw.invKeys k c0 hm
      · intro k c hmem
        rcases mem_updateChild hmem with hm | ⟨c0, hm, hv⟩
        · exact hw.invSub k c hm
        · rw [show c = (k, c).2 from rfl, hv]
          exact ih hrest sub file (hw.invSub p sub (lookupChild_mem hl))
    | none =>
      rw [insertParts_cons_none info rest file hl]
      refine WfKeys.mk _ _ ?_ ?_
      · intro k c hmem
        rcases List.mem_append.mp hmem with hm | hm
        · exact hw.invKeys k c hm
        · have hk : k = p := by simpa using congrArg Prod.fst (List.mem_singleton.mp hm)
          rw [hk]
          exact hp
      · intro k c hmem
        rcases List.mem_append.mp hmem with hm | hm
        · exact hw.invSub k c hm
        · have hc : c = insertParts (if rest = [] then FTree.node (some file) []
              else FTree.node none []) rest file := by
            simpa using congrArg Prod.snd (List.mem_singleton.mp hm)
          rw [hc]
          refine ih hrest _ file ?_
          by_cases hr : rest = []
          · rw [if_pos hr]
            exact wfKeys_nilch _
          · rw [if_neg hr]
            exact wfKeys_nilch _

theorem wfKeys_organize (files : List String)
    (hres : ∀ f ∈ files, ∀ p ∈ jsSplitSlash f, p ≠ "isFile" ∧ p ≠ "fullPath") :
    WfKeys (organizeFileStructure files) := by
  have main : ∀ (l : List String),
      (∀ f ∈ l, ∀ p ∈ jsSplitSlash f, p ≠ "isFile" ∧ p ≠ "fullPath") →
      ∀ t : FTree, WfKeys t →
        WfKeys (l.foldl (fun t f => insertParts t (jsSplitSlash f) f) t) := by
    intro l
    induction l with
    | nil =>
      intro _ t h
      simpa using h
    | cons g gs ih =>
      intro hr t h
      simp only [List.foldl_cons]
      exact ih (fun f hf => hr f (List.mem_cons_of_mem g hf)) _
        (wfKeys_insertParts (jsSplitSlash g) (hr g (List.mem_cons_self g gs)) t g h)
  exact main files hres _ (wfKeys_nilch none)

theorem insertPartsJs_vobj_found_ok {fields : List (String × JsVal)} {p : String} {w w' : JsVal}
    {rest : List String} {file : String}
    (h : lookupField fields p = some w) (ht : jsTruthyVal w = true)
    (hrec : insertPartsJs w rest file = Except.ok w') :
    insertPartsJs (JsVal.vobj fields) (p :: rest) file
      = Except.ok (JsVal.vobj (updateField fields p w')) := by
  rw [insertPartsJs_vobj_found rest file h ht, hrec]

theorem insertPartsJs_vobj_none_ok {fields : List (String × JsVal)} {p : String} {w' : JsVal}
    {rest : List String} {file : String}
    (h : lookupField fields p = none)
    (hrec : insertPartsJs (if rest = [] then leafObj file else JsVal.vobj []) rest file
      = Except.ok w') :
    insertPartsJs (JsVal.vobj fields) (p :: rest) file
      = Except.ok (JsVal.vobj (fields ++ [(p, w')])) := by
  rw [insertPartsJs_vobj_none rest file h, hrec]

theorem orgAux_cons_ok {v v' : JsVal} {f : String} (rest : List String)
    (h : insertPartsJs v (jsSplitSlash f) f = Except.ok v') :
    organizeFileStructureJsAux v (f :: rest) = organizeFileStructureJsAux v' rest := by
  rw [orgAux_cons, h]

theorem orgAux_nil (v : JsVal) : organizeFileStructureJsAux v [] = Except.ok v := by
  cases v
  all_goals rfl

/-- On marker-free segments the raw builder never throws and produces
exactly the image of the idealized insertion. -/
theorem insertPartsJs_toJsVal : ∀ (parts : List String),
    (∀ p ∈ parts, p ≠ "isFile" ∧ p ≠ "fullPath") →
    ∀ (t : FTree) (file : String),
      insertPartsJs (toJsVal t) parts file = Except.ok (toJsVal (insertParts t parts file)) := by
  intro parts
  induction parts with
  | nil =>
    intro _ t file
    rw [insertPartsJs_nil, insertParts_nil]
  | cons p rest ih =>
    intro hres t file
    have hp := hres p (List.mem_cons_self p rest)
    have hrest : ∀ q ∈ rest, q ≠ "isFile" ∧ q ≠ "fullPath" :=
      fun q hq => hres q (List.mem_cons_of_mem p hq)
    obtain ⟨info, ch⟩ := t
    rw [toJsVal_node]
    match hl : lookupChild ch p with
    | some sub =>
      have hlf : lookupField (payloadFields info ++ toJsValL ch) p = some (toJsVal sub) := by
        rw [lookupField_payload info _ p hp.1 hp.2, lookupField_toJsValL, hl]
        rfl
      rw [insertPartsJs_vobj_found_ok hlf (jsTruthyVal_toJsVal sub) (ih hrest sub file)]
      rw [insertParts_cons_some info rest file hl, toJsVal_node,
        updateField_payload info _ p _ hp.1 hp.2, updateField_toJsValL]
    | none =>
      have hlf : lookupField (payloadFields info ++ toJsValL ch) p = none := by
        rw [lookupField_payload info _ p hp.1 hp.2, lookupField_toJsValL, hl]
        rfl
      have hfresh : (if rest = [] then leafObj file else JsVal.vobj [])
          = toJsVal (if rest = [] then FTree.node (some file) [] else FTree.node none []) := by
        by_cases hr : rest = []
        · rw [if_pos hr, if_pos hr, leafObj_toJsVal]
        · rw [if_neg hr, if_neg hr, vobjNil_toJsVal]
      have hrec : insertPartsJs (if rest = [] then leafObj file else JsVal.vobj []) rest file
          = Except.ok (toJsVal (insertParts
              (if rest = [] then FTree.node (some file) [] else FTree.node none []) rest file)) := by
        rw [hfresh]
        exact ih hrest _ file
      rw [insertPartsJs_vobj_none_ok hlf hrec]
      rw [insertParts_cons_none info rest file hl, toJsVal_node, toJsValL_append,
        List.append_assoc]

theorem orgAux_toJsVal : ∀ (l : List String),
    (∀ f ∈ l, ∀ p ∈ jsSplitSlash f, p ≠ "isFile" ∧ p ≠ "fullPath") →
    ∀ (t : FTree),
      organizeFileStructureJsAux (toJsVal t) l
        = Except.ok (toJsVal (l.foldl (fun t f => insertParts t (jsSplitSlash f) f) t)) := by
  intro l
  induction l with
  | nil =>
    intro _ t
    rw [orgAux_nil]
    rfl
  | cons g gs ih =>
    intro hres t
    have h1 : insertPartsJs (toJsVal t) (jsSplitSlash g) g
        = Except.ok (toJsVal (insertParts t (jsSplitSlash g) g)) :=
      insertPartsJs_toJsVal (jsSplitSlash g) (hres g (List.mem_cons_self g gs)) t g
    rw [orgAux_cons_ok gs h1, List.foldl_cons]
    exact ih (fun f hf => hres f (List.mem_cons_of_mem g hf)) _

/-- On marker-free path lists the raw builder succeeds and builds exactly
the image of the idealized tree. -/
theorem organizeJs_toJsVal (files : List String)
    (hres : ∀ f ∈ files, ∀ p ∈ jsSplitSlash f, p ≠ "isFile" ∧ p ≠ "fullPath") :
    organizeFileStructureJs files = Except.ok (toJsVal (organizeFileStructure files)) := by
  unfold organizeFileStructureJs organizeFileStructure
  rw [vobjNil_toJsVal]
  exact orgAux_toJsVal files hres _

/-- A walk through the image of a well-formed idealized tree that ends at a
value with a string-recorded full path ends at the image of an idealized
leaf at the same position. -/
theorem walkJs_toJsVal : ∀ (pos : List String) (t : FTree) (v : JsVal) (fp : String),
    WfKeys t → walkJs (toJsVal t) pos = some v → leafFullPath v = some fp →
    ∃ ch2, walk t pos = some (FTree.node (some fp) ch2) := by
  intro pos
  induction pos with
  | nil =>
    intro t v fp hw hwk hlf
    rw [walkJs_nil] at hwk
    injection hwk with hv
    subst hv
    obtain ⟨info, ch⟩ := t
    cases info with
    | some fp0 =>
      rw [toJsVal_node, leafFullPath_payload_some] at hlf
      injection hlf with h
      subst h
      exact ⟨ch, walk_nil _⟩
    | none =>
      rw [toJsVal_node] at hlf
      have hni : lookupChild ch "isFile" = none := by
        match hl : lookupChild ch "isFile" with
        | none => rfl
        | some sub => exact absurd rfl (hw.invKeys "isFile" sub (lookupChild_mem hl)).1
      simp [leafFullPath, payloadFields, lookupField_toJsValL, hni] at hlf
  | cons p rest ih =>
    intro t v fp hw hwk hlf
    obtain ⟨info, ch⟩ := t
    rw [toJsVal_node] at hwk
    by_cases hp1 : p = "isFile"
    · subst hp1
      have hni : lookupChild ch "isFile" = none := by
        match hl : lookupChild ch "isFile" with
        | none => rfl
        | some sub => exact absurd rfl (hw.invKeys "isFile" sub (lookupChild_mem hl)).1
      cases info with
      | some fp0 =>
        have hlp : lookupField (payloadFields (some fp0) ++ toJsValL ch) "isFile"
            = some (JsVal.vbool true) := rfl
        rw [walkJs_vobj_some rest hlp] at hwk
        cases rest with
        | nil =>
          rw [walkJs_nil] at hwk
          injection hwk with hv
          subst hv
          simp [leafFullPath] at hlf
        | cons q qs =>
          rw [walkJs_vbool] at hwk
          cases hwk
      | none =>
        have hlp : lookupField (payloadFields none ++ toJsValL ch) "isFile" = none := by
          simp only [payloadFields, List.nil_append, lookupField_toJsValL, hni,
            Option.map_none']
        rw [walkJs_vobj_none rest hlp] at hwk
        cases hwk
    · by_cases hp2 : p = "fullPath"
      · subst hp2
        have hnf : lookupChild ch "fullPath" = none := by
          match hl : lookupChild ch "fullPath" with
          | none => rfl
          | some sub => exact absurd rfl (hw.invKeys "fullPath" sub (lookupChild_mem hl)).2
        cases info with
        | some fp0 =>
          have hlp : lookupField (payloadFields (some fp0) ++ toJsValL ch) "fullPath"
              = some (JsVal.vstr fp0) := rfl
          rw [walkJs_vobj_some rest hlp] at hwk
          cases rest with
          | nil =>
            rw [walkJs_nil] at hwk
            injection hwk with hv
            subst hv
            simp [leafFullPath] at hlf
          | cons q qs =>
            rw [walkJs_vstr] at hwk
            cases hwk
        | none =>
          have hlp : lookupField (payloadFields none ++ toJsValL ch) "fullPath" = none := by
            simp only [payloadFields, List.nil_append, lookupField_toJsValL, hnf,
              Option.map_none']
          rw [walkJs_vobj_none rest hlp] at hwk
          cases hwk
      · match hl : lookupChild ch p with
        | some sub =>
          have hlp : lookupField (payloadFields info ++ toJsValL ch) p = some (toJsVal sub) := by
            rw [lookupField_payload info _ p hp1 hp2, lookupField_toJsValL, hl]
            rfl
          rw [walkJs_vobj_some rest hlp] at hwk
          obtain ⟨ch2, hwalk⟩ := ih sub v fp (hw.invSub p sub (lookupChild_mem hl)) hwk hlf
          refine ⟨ch2, ?_⟩
          rw [walk_cons_some info rest hl]
          exact hwalk
        | none =>
          have hlp : lookupField (payloadFields info ++ toJsValL ch) p = none := by
            rw [lookupField_payload info _ p hp1 hp2, lookupField_toJsValL, hl]
            rfl
          rw [walkJs_vobj_none rest hlp] at hwk
          cases hwk

/-- C4 counterexample: the builder run on raw JavaScript objects does not
satisfy the claim for every list of file path strings.  With
`["a", "a/isFile/b"]` the walk descends into the leaf's primitive `isFile`
value and the next creation is an assignment to a property of a primitive —
a strict-mode TypeError: no tree is built at all.  With
`["", "/fullPath"]` the second path's `fullPath` segment finds the falsy
recorded path `""` of the existing leaf and overwrites it
(`!current[part]` holds), so the leaf reached at position `[""]` is still
marked `isFile` but its recorded `fullPath` is no longer a string: it
cannot be split and walked back to the leaf. -/
theorem claim_C4_counterexample :
    organizeFileStructureJs ["a", "a/isFile/b"] = Except.error ()
    ∧ organizeFileStructureJs ["", "/fullPath"]
      = Except.ok (JsVal.vobj [("", JsVal.vobj [("isFile", JsVal.vbool true),
          ("fullPath", JsVal.vobj [("isFile", JsVal.vbool true),
            ("fullPath", JsVal.vstr "/fullPath")])])])
    ∧ walkJs (JsVal.vobj [("", JsVal.vobj [("isFile", JsVal.vbool true),
          ("fullPath", JsVal.vobj [("isFile", JsVal.vbool true),
            ("fullPath", JsVal.vstr "/fullPath")])])]) [""]
      = some (JsVal.vobj [("isFile", JsVal.vbool true),
          ("fullPath", JsVal.vobj [("isFile", JsVal.vbool true),
            ("fullPath", JsVal.vstr "/fullPath")])])
    ∧ isFileMarked (JsVal.vobj [("isFile", JsVal.vbool true),
          ("fullPath", JsVal.vobj [("isFile", JsVal.vbool true),
            ("fullPath", JsVal.vstr "/fullPath")])]) = true
    ∧ leafFullPath (JsVal.vobj [("isFile", JsVal.vbool true),
          ("fullPath", JsVal.vobj [("isFile", JsVal.vbool true),
            ("fullPath", JsVal.vstr "/fullPath")])]) = none :=
  ⟨by rfl, by rfl, by rfl, by rfl, by rfl⟩

/-- C4 (amended): for every list of file path strings none of whose
slash-separated segments names a reserved key — the leaf markers `isFile`
and `fullPath`, whose collision with an existing leaf makes the raw builder
throw or corrupt a recorded path, or an `Object.prototype` member, which a
property read would find through the prototype chain — the raw builder
completes without error and produces exactly the image of the idealized
tree; every value it can walk to that records a string full path records
exactly the position at which it sits, so splitting the recorded full path
and walking it from the root reaches that same leaf; and re-inserting an
already-inserted path is a no-op (no duplicate leaves, structure
unchanged). -/
theorem claim_C4 (files : List String)
    (hres : ∀ f ∈ files, ∀ p ∈ jsSplitSlash f, p ∉ reservedSegmentKeys) :
    organizeFileStructureJs files = Except.ok (toJsVal (organizeFileStructure files))
    ∧ (∀ jt pos v fp, organizeFileStructureJs files = Except.ok jt →
        walkJs jt pos = some v → leafFullPath v = some fp →
        jsSplitSlash fp = pos ∧ walkJs jt (jsSplitSlash fp) = some v)
    ∧ (∀ f, f ∈ files → organizeFileStructureJs (files ++ [f]) = organizeFileStructureJs files) := by
  have hres2 : ∀ f ∈ files, ∀ p ∈ jsSplitSlash f, p ≠ "isFile" ∧ p ≠ "fullPath" := by
    intro f hf p hp
    have hni := hres f hf p hp
    constructor
    · intro h
      exact hni (by rw [h]; simp [reservedSegmentKeys])
    · intro h
      exact hni (by rw [h]; simp [reservedSegmentKeys])
  have hag := organizeJs_toJsVal files hres2
  refine ⟨hag, ?_, ?_⟩
  · intro jt pos v fp hok hwk hlf
    rw [hag] at hok
    injection hok with hok
    subst hok
    obtain ⟨ch2, hwalk⟩ := walkJs_toJsVal pos (organizeFileStructure files) v fp
      (wfKeys_organize files hres2) hwk hlf
    have hsplit : jsSplitSlash fp = pos := by
      have := placed_organize files pos fp ch2 hwalk
      simpa using this
    refine ⟨hsplit, ?_⟩
    rw [hsplit]
    exact hwk
  · intro f hf
    have hresx : ∀ g ∈ files ++ [f], ∀ p ∈ jsSplitSlash g, p ≠ "isFile" ∧ p ≠ "fullPath" := by
      intro g hg p hp
      rcases List.mem_append.mp hg with h | h
      · exact hres2 g h p hp
      · rw [List.mem_singleton.mp h] at hp
        exact hres2 f hf p hp
    rw [organizeJs_toJsVal (files ++ [f]) hresx, hag]
    have horg : organizeFileStructure (files ++ [f]) = organizeFileStructure files := by
      have h2 : organizeFileStructure (files ++ [f])
          = insertParts (organizeFileStructure files) (jsSplitSlash f) f := by
        unfold organizeFileStructure
        rw [List.foldl_append]
        rfl
      rw [h2]
      exact organize_mem_noop hf
    rw [horg]

/-- Witness for C4 at a concrete marker-free input: the raw builder
succeeds with the image of the idealized tree, the leaf stored for
`src/A.java` records exactly its walked position, and appending a
duplicate path leaves the built value unchanged. -/
theorem claim_C4_witness :
    organizeFileStructureJs ["src/A.java", "src/B.java"]
      = Except.ok (toJsVal (organizeFileStructure ["src/A.java", "src/B.java"]))
    ∧ jsSplitSlash "src/A.java" = ["src", "A.java"]
    ∧ organizeFileStructureJs (["src/A.java", "src/B.java", "src/A.java"] ++ ["src/A.java"])
      = organizeFileStructureJs ["src/A.java", "src/B.java", "src/A.java"] :=
  ⟨(claim_C4 ["src/A.java", "src/B.java"] (by decide)).1,
    ((claim_C4 ["src/A.java", "src/B.java"] (by decide)).2.1
      (toJsVal (organizeFileStructure ["src/A.java", "src/B.java"])) ["src", "A.java"]
      (toJsVal (FTree.node (some "src/A.java") [])) "src/A.java"
      (claim_C4 ["src/A.java", "src/B.java"] (by decide)).1 (by rfl) (by rfl)).1,
    (claim_C4 ["src/A.java", "src/B.java", "src/A.java"] (by decide)).2.2 "src/A.java"
      (by simp)⟩
